import Mathlib

/-!
# AnalyzeBB: per-basic-block instruction metrics

A shallow embedding of `llvm/lib/Transforms/PhaseBasedTuning/AnalyzeBB.cpp`.

* `Opcode`, `Instruction`, `BasicBlock` model the part of the host IR the pass reads.
* `BBMetrics` is the record of the source; `DenseMap` is the table `BBMetricsMap`,
  an association list keyed by block identity.
* `runOnBasicBlock` is the pass body, as a function from the state before the call
  to the returned flag and the state after it.

The `int` fields of `BBMetrics` are integers, and the pass body is embedded twice:

* `visit`, `runOnBasicBlock`, `analyze` count exactly.  They are used for what one call
  does to a record that starts value-initialised, where a count is at most the number of
  instructions of the block.
* `visitInt`, `runOnBasicBlockInt`, `analyzeInt` execute `++` on an `int` in 32-bit
  two's complement (`incrInt`), wrapping from `INT_MAX` to `INT_MIN`.  They are used for
  what repeated calls accumulate in a record, where the limit of an `int` is within
  reach.

`runOnBasicBlockW` is the same body once more, as steps on the memory the call can
reach (the pass object and the block held by reference), to state what the call leaves
untouched.

The `float` field is only ever value-initialised (to zero) and copied, never computed
with, so it is modelled by a rational number.
-/

namespace AnalyzeBB

/-! ## Host IR -/

/-- Modelled from the spec: the opcode tags of the host IR (`llvm/IR/Instruction.def` is
not among the sources).  The named constructors are the opcodes of the host IR; the tags
the pass dispatches on keep the names used in the `switch` of `runOnBasicBlock`.
`Other n` stands for an opcode value outside the recognised set. -/
inductive Opcode where
  | Ret | Br | Switch | IndirectBr | Invoke | Resume | Unreachable
  | Add | FAdd | Sub | FSub | Mul | FMul | UDiv | SDiv | FDiv | URem | SRem | FRem
  | Shl | LShr | AShr | And | Or | Xor
  | Alloca | Load | Store | GetElementPtr | Fence | AtomicCmpXchg | AtomicRMW
  | Trunc | ZExt | SExt | FPToUI | FPToSI | UIToFP | SIToFP | FPTrunc | FPExt
  | PtrToInt | IntToPtr | BitCast
  | ICmp | FCmp | PHI | Call | Select | UserOp1 | UserOp2 | VAArg
  | ExtractElement | InsertElement | ShuffleVector | ExtractValue | InsertValue
  | LandingPad
  | Other (n : Nat)
  deriving Repr

/-- The named opcode tags, in the order of their declaration. -/
def Opcode.named : List Opcode :=
  [.Ret, .Br, .Switch, .IndirectBr, .Invoke, .Resume, .Unreachable,
   .Add, .FAdd, .Sub, .FSub, .Mul, .FMul, .UDiv, .SDiv, .FDiv, .URem, .SRem, .FRem,
   .Shl, .LShr, .AShr, .And, .Or, .Xor,
   .Alloca, .Load, .Store, .GetElementPtr, .Fence, .AtomicCmpXchg, .AtomicRMW,
   .Trunc, .ZExt, .SExt, .FPToUI, .FPToSI, .UIToFP, .SIToFP, .FPTrunc, .FPExt,
   .PtrToInt, .IntToPtr, .BitCast,
   .ICmp, .FCmp, .PHI, .Call, .Select, .UserOp1, .UserOp2, .VAArg,
   .ExtractElement, .InsertElement, .ShuffleVector, .ExtractValue, .InsertValue,
   .LandingPad]

/-- An injective numbering of the opcode tags, used only to decide their equality: the
named tags are numbered in the order of their declaration, the values outside the
recognised set come after them. -/
def Opcode.code : Opcode → Nat
  | .Ret => 1 | .Br => 2 | .Switch => 3 | .IndirectBr => 4 | .Invoke => 5 | .Resume => 6
  | .Unreachable => 7 | .Add => 8 | .FAdd => 9 | .Sub => 10 | .FSub => 11 | .Mul => 12
  | .FMul => 13 | .UDiv => 14 | .SDiv => 15 | .FDiv => 16 | .URem => 17 | .SRem => 18
  | .FRem => 19 | .Shl => 20 | .LShr => 21 | .AShr => 22 | .And => 23 | .Or => 24
  | .Xor => 25 | .Alloca => 26 | .Load => 27 | .Store => 28 | .GetElementPtr => 29
  | .Fence => 30 | .AtomicCmpXchg => 31 | .AtomicRMW => 32 | .Trunc => 33 | .ZExt => 34
  | .SExt => 35 | .FPToUI => 36 | .FPToSI => 37 | .UIToFP => 38 | .SIToFP => 39
  | .FPTrunc => 40 | .FPExt => 41 | .PtrToInt => 42 | .IntToPtr => 43 | .BitCast => 44
  | .ICmp => 45 | .FCmp => 46 | .PHI => 47 | .Call => 48 | .Select => 49 | .UserOp1 => 50
  | .UserOp2 => 51 | .VAArg => 52 | .ExtractElement => 53 | .InsertElement => 54
  | .ShuffleVector => 55 | .ExtractValue => 56 | .InsertValue => 57 | .LandingPad => 58
  | .Other n => n + 59

/-- The tag numbered `c`. -/
def Opcode.ofCode (c : Nat) : Opcode :=
  if c < 59 then Opcode.named.getD (c - 1) (.Other 0) else .Other (c - 59)

/-- Equality of opcode tags is decided on their numbers; the numbering is injective
because `Opcode.ofCode` inverts it. -/
instance : DecidableEq Opcode := fun a b =>
  if h : a.code = b.code then
    isTrue (by
      have ha : Opcode.ofCode a.code = a := by cases a <;> rfl
      have hb : Opcode.ofCode b.code = b := by cases b <;> rfl
      rw [← ha, ← hb, h])
  else isFalse (fun e => h (congrArg Opcode.code e))

/-- Modelled from the spec: `Instruction::isBinaryOp()` (declared in `llvm/IR/Instruction.h`,
not among the sources): the instruction is a binary arithmetic/logic operator.  It is a
function of the opcode tag alone. -/
def isBinaryOp : Opcode → Bool
  | .Add | .FAdd | .Sub | .FSub | .Mul | .FMul | .UDiv | .SDiv | .FDiv
  | .URem | .SRem | .FRem | .Shl | .LShr | .AShr | .And | .Or | .Xor => true
  | _ => false

/-- Modelled from the spec: `isa<CmpInst>(II)` (`CmpInst` is declared in
`llvm/IR/InstrTypes.h`, not among the sources): the instruction is a comparison. -/
def isCmpInst : Opcode → Bool
  | .ICmp | .FCmp => true
  | _ => false

/-- An instruction: its own identity as a value (`id`), its opcode tag and the identities
of the values it uses as operands. -/
structure Instruction where
  id : Nat
  opcode : Opcode
  operands : List Nat
  deriving DecidableEq, Repr

/-- A basic block: its identity (the address `&BB` used as map key) and its ordered
instruction sequence. -/
structure BasicBlock where
  key : Nat
  insts : List Instruction
  deriving DecidableEq, Repr

/-- The value of `BB.size()`. -/
def BasicBlock.size (BB : BasicBlock) : Nat := BB.insts.length

/-! ## Metrics record and table -/

/-- The value of `#define MIN_BB_SIZE 5`. -/
def MIN_BB_SIZE : Nat := 5

/-- The record `struct BBMetrics`. -/
structure BBMetrics where
  SimpleInst : Int
  ComplexInst : Int
  MemoryInst : Int
  CallInst : Int
  AvgDepDist : ℚ
  deriving DecidableEq, Repr

/-- A value-initialised `BBMetrics()`: every field zero. -/
def BBMetrics.zero : BBMetrics := ⟨0, 0, 0, 0, 0⟩

/-- The table `DenseMap<const BasicBlock *, BBMetrics>`: at most one entry per key. -/
abbrev DenseMap := List (Nat × BBMetrics)

/-- The record stored for `k`, if any (`DenseMap::find`). -/
def DenseMap.lookup : DenseMap → Nat → Option BBMetrics
  | [], _ => none
  | (k', r) :: m, k => if k' = k then some r else DenseMap.lookup m k

/-- The statement `Map[k].field++`: `DenseMap::operator[]` (`llvm/ADT/DenseMap.h`) returns
the record stored for `k`, inserting a value-initialised record first when there is none,
and `f` is then applied to that record in place. -/
def DenseMap.update : DenseMap → Nat → (BBMetrics → BBMetrics) → DenseMap
  | [], k, f => [(k, f BBMetrics.zero)]
  | (k', r) :: m, k, f =>
    if k' = k then (k', f r) :: m else (k', r) :: DenseMap.update m k f

/-- Modelled from the spec: `++` on a `STATISTIC` counter (`llvm/ADT/Statistic.h` is not
among the sources): the counter goes up by one. -/
def Statistic.incr (c : Nat) : Nat := c + 1

/-- The pass state: the member `BBMetricsMap` and the two counters declared with
`STATISTIC`. -/
structure State where
  BBMetricsMap : DenseMap
  BBCount : Nat
  ActualBBCount : Nat
  deriving DecidableEq, Repr

/-- The state of a freshly constructed pass: empty table, both counters zero. -/
def State.init : State := ⟨[], 0, 0⟩

/-! ## The pass -/

/-- One iteration of the loop of `runOnBasicBlock`: the `switch` on `II->getOpcode()`. -/
def visit (key : Nat) (m : DenseMap) (II : Instruction) : DenseMap :=
  match II.opcode with
  | .Mul | .FMul | .UDiv | .SDiv | .FDiv | .URem | .SRem | .FRem =>
    m.update key (fun r => { r with ComplexInst := r.ComplexInst + 1 })
  | .Store | .Load | .AtomicCmpXchg | .AtomicRMW | .GetElementPtr =>
    m.update key (fun r => { r with MemoryInst := r.MemoryInst + 1 })
  | .Call | .Invoke =>
    m.update key (fun r => { r with CallInst := r.CallInst + 1 })
  | op =>
    if isBinaryOp op || isCmpInst op then
      m.update key (fun r => { r with SimpleInst := r.SimpleInst + 1 })
    else m

/-- The pass body `AnalyzeBB::runOnBasicBlock`: the returned flag and the state after. -/
def runOnBasicBlock (s : State) (BB : BasicBlock) : Bool × State :=
  let s1 : State := { s with BBCount := Statistic.incr s.BBCount }
  if BB.size < MIN_BB_SIZE then
    (false, s1)
  else
    let s2 : State := { s1 with ActualBBCount := Statistic.incr s1.ActualBBCount }
    (false, { s2 with BBMetricsMap := BB.insts.foldl (visit BB.key) s2.BBMetricsMap })

/-- The state after one call of the pass on `BB`. -/
def analyze (s : State) (BB : BasicBlock) : State := (runOnBasicBlock s BB).2

/-- The state after the pass was called on each block of `bbs`, in order. -/
def analyzeAll (s : State) (bbs : List BasicBlock) : State := bbs.foldl analyze s

/-! ## Reference definitions, following the specification's wording -/

/-- The opcodes the specification lists as complex arithmetic. -/
def complexOpcodes : List Opcode :=
  [.Mul, .FMul, .UDiv, .SDiv, .FDiv, .URem, .SRem, .FRem]

/-- The opcodes the specification lists as memory access. -/
def memoryOpcodes : List Opcode :=
  [.Store, .Load, .AtomicCmpXchg, .AtomicRMW, .GetElementPtr]

/-- The opcodes the specification lists as calls. -/
def callOpcodes : List Opcode := [.Call, .Invoke]

/-- Specification: the opcode is complex arithmetic. -/
def isComplexOpcode (op : Opcode) : Bool := decide (op ∈ complexOpcodes)

/-- Specification: the opcode is a memory access. -/
def isMemoryOpcode (op : Opcode) : Bool := decide (op ∈ memoryOpcodes)

/-- Specification: the opcode is a call or an invoke. -/
def isCallOpcode (op : Opcode) : Bool := decide (op ∈ callOpcodes)

/-- Specification: the opcode is one of the remaining ones (neither complex, memory nor
call) and is a binary operator or a comparison. -/
def isSimpleOpcode (op : Opcode) : Bool :=
  !isComplexOpcode op && !isMemoryOpcode op && !isCallOpcode op &&
    (isBinaryOp op || isCmpInst op)

/-- Specification: the instruction is complex arithmetic. -/
def specIsComplex (I : Instruction) : Bool := isComplexOpcode I.opcode

/-- Specification: the instruction is a memory access. -/
def specIsMemory (I : Instruction) : Bool := isMemoryOpcode I.opcode

/-- Specification: the instruction is a call or an invoke. -/
def specIsCall (I : Instruction) : Bool := isCallOpcode I.opcode

/-- Specification: the instruction is one of the remaining ones (neither complex, memory
nor call) and is a binary operator or a comparison. -/
def specIsSimple (I : Instruction) : Bool := isSimpleOpcode I.opcode

/-- Specification: the instruction falls into one of the four categories. -/
def specIsCounted (I : Instruction) : Bool :=
  specIsComplex I || specIsMemory I || specIsCall I || specIsSimple I

/-- Specification: the instruction is uncounted: its opcode is in none of the complex,
memory or call sets and it is neither a binary operator nor a comparison. -/
def specIsUncounted (I : Instruction) : Bool :=
  !isComplexOpcode I.opcode && !isMemoryOpcode I.opcode && !isCallOpcode I.opcode &&
    !isBinaryOp I.opcode && !isCmpInst I.opcode

/-- Specification: number of complex instructions of a sequence. -/
def specComplexCount (insts : List Instruction) : Nat := insts.countP specIsComplex

/-- Specification: number of memory instructions of a sequence. -/
def specMemoryCount (insts : List Instruction) : Nat := insts.countP specIsMemory

/-- Specification: number of call instructions of a sequence. -/
def specCallCount (insts : List Instruction) : Nat := insts.countP specIsCall

/-- Specification: number of simple instructions of a sequence. -/
def specSimpleCount (insts : List Instruction) : Nat := insts.countP specIsSimple

/-- Specification: the position, among the instructions `earlier` that precede a user,
of the instruction that produced the value `v`, if there is one. -/
def producerPosition (earlier : List Instruction) (v : Nat) : Option Nat :=
  earlier.findIdx? (fun P => P.id == v)

/-- Specification: the reuse distances of the uses made by the instructions `rest`, which
follow the instructions `earlier` in the block: for each operand produced by an earlier
instruction, `position(user) - position(producer) - 1`, both positions counted from the
same origin, which is the number of instructions between the producer and the user. -/
def reuseDistancesFrom (earlier : List Instruction) : List Instruction → List Nat
  | [] => []
  | I :: rest =>
    I.operands.filterMap (fun v =>
        (producerPosition earlier v).map (fun p => earlier.length - p - 1))
      ++ reuseDistancesFrom (earlier ++ [I]) rest

/-- Specification: all per-use reuse distances observed in a block. -/
def reuseDistances (insts : List Instruction) : List Nat := reuseDistancesFrom [] insts

/-- Specification: the arithmetic mean of the per-use reuse distances, `0` when the block
has no intra-block operand reuse. -/
def specAvgReuseDistance (insts : List Instruction) : ℚ :=
  if (reuseDistances insts).isEmpty then 0
  else ((reuseDistances insts).sum : ℚ) / ((reuseDistances insts).length : ℚ)

/-- Specification, with positions counted as in its worked example, where the user's
position is counted from 1 and the producer's from 0 (`%b`, the second instruction, is
"at position 2" and reuses `%a` "from position 0"): `position(user) -
position(producer) - 1` is then 1 for a user right after its producer. -/
def reuseDistancesWorkedFrom (earlier : List Instruction) : List Instruction → List Nat
  | [] => []
  | I :: rest =>
    I.operands.filterMap (fun v =>
        (producerPosition earlier v).map (fun p => (earlier.length + 1) - p - 1))
      ++ reuseDistancesWorkedFrom (earlier ++ [I]) rest

/-- Specification: all per-use reuse distances of a block, positions counted as in the
worked example. -/
def reuseDistancesWorked (insts : List Instruction) : List Nat :=
  reuseDistancesWorkedFrom [] insts

/-- Specification: the arithmetic mean of the per-use reuse distances, positions counted
as in the worked example, `0` when the block has no intra-block operand reuse. -/
def specAvgReuseDistanceWorked (insts : List Instruction) : ℚ :=
  if (reuseDistancesWorked insts).isEmpty then 0
  else ((reuseDistancesWorked insts).sum : ℚ) / ((reuseDistancesWorked insts).length : ℚ)

/-- Specification: no instruction of the sequence consumes an operand produced by an
earlier instruction of the same sequence. -/
def noIntraBlockReuse (insts : List Instruction) : Prop :=
  ∀ i j : Fin insts.length, j.val < i.val → (insts.get j).id ∉ (insts.get i).operands

/-! ## Example blocks -/

/-- An instruction with the given opcode, no operands. -/
def mkInst (id : Nat) (op : Opcode) : Instruction := ⟨id, op, []⟩

/-- The block `add, add, mul, load, store, call`. -/
def sixMixedBlock : BasicBlock :=
  ⟨1, [mkInst 10 .Add, mkInst 11 .Add, mkInst 12 .Mul, mkInst 13 .Load,
       mkInst 14 .Store, mkInst 15 .Call]⟩

/-- Five `icmp`. -/
def fiveIcmpBlock : BasicBlock :=
  ⟨2, [mkInst 20 .ICmp, mkInst 21 .ICmp, mkInst 22 .ICmp, mkInst 23 .ICmp,
       mkInst 24 .ICmp]⟩

/-- Four instructions: below the threshold. -/
def fourAddBlock : BasicBlock :=
  ⟨3, [mkInst 30 .Add, mkInst 31 .Mul, mkInst 32 .Load, mkInst 33 .Call]⟩

/-- Five casts: at the threshold, no instruction of a counted category. -/
def fiveCastBlock : BasicBlock :=
  ⟨4, [mkInst 40 .ZExt, mkInst 41 .SExt, mkInst 42 .Trunc, mkInst 43 .BitCast,
       mkInst 44 .ZExt]⟩

/-- The block `add, add, mul, load, store, call` with a phi node, a cast and a branch
inserted, under another key. -/
def sixMixedPaddedBlock : BasicBlock :=
  ⟨6, [mkInst 60 .PHI, mkInst 10 .Add, mkInst 11 .Add, mkInst 61 .ZExt, mkInst 12 .Mul,
       mkInst 13 .Load, mkInst 14 .Store, mkInst 15 .Call, mkInst 62 .Br]⟩

/-- The sequence `%a = load; %b = add %a, 1; %c = add %a, %b` (the constant `1` is the
value `100`, which no instruction produces). -/
def reuseSeq : List Instruction :=
  [⟨50, .Load, [101]⟩, ⟨51, .Add, [50, 100]⟩, ⟨52, .Add, [50, 51]⟩]

/-- The sequence `reuseSeq` followed by a comparison of two constants and a branch, to
reach the threshold without further reuse. -/
def reuseBlock : BasicBlock :=
  ⟨5, reuseSeq ++ [⟨53, .ICmp, [100, 100]⟩, ⟨54, .Br, [102]⟩]⟩

/-! ## The pass with 32-bit counts -/

/-- The largest value of an `int`. -/
def INT_MAX : Int := 2147483647

/-- The smallest value of an `int`. -/
def INT_MIN : Int := -2147483648

/-- The 32-bit two's complement value of an integer: the one value in
`INT_MIN .. INT_MAX` that differs from it by a multiple of `2^32`. -/
def wrapInt (x : Int) : Int := (x + 2147483648) % 4294967296 - 2147483648

/-- The statement `x++` on an `int` field, as executed on 32 bits: `INT_MAX` is followed
by `INT_MIN`. -/
def incrInt (x : Int) : Int := wrapInt (x + 1)

/-- One iteration of the loop of `runOnBasicBlock`, with `++` executed on 32 bits. -/
def visitInt (key : Nat) (m : DenseMap) (II : Instruction) : DenseMap :=
  match II.opcode with
  | .Mul | .FMul | .UDiv | .SDiv | .FDiv | .URem | .SRem | .FRem =>
    m.update key (fun r => { r with ComplexInst := incrInt r.ComplexInst })
  | .Store | .Load | .AtomicCmpXchg | .AtomicRMW | .GetElementPtr =>
    m.update key (fun r => { r with MemoryInst := incrInt r.MemoryInst })
  | .Call | .Invoke =>
    m.update key (fun r => { r with CallInst := incrInt r.CallInst })
  | op =>
    if isBinaryOp op || isCmpInst op then
      m.update key (fun r => { r with SimpleInst := incrInt r.SimpleInst })
    else m

/-- The pass body `AnalyzeBB::runOnBasicBlock`, with `++` on the `int` fields executed on
32 bits. -/
def runOnBasicBlockInt (s : State) (BB : BasicBlock) : Bool × State :=
  let s1 : State := { s with BBCount := Statistic.incr s.BBCount }
  if BB.size < MIN_BB_SIZE then
    (false, s1)
  else
    let s2 : State := { s1 with ActualBBCount := Statistic.incr s1.ActualBBCount }
    (false, { s2 with BBMetricsMap := BB.insts.foldl (visitInt BB.key) s2.BBMetricsMap })

/-- The state after one call of the pass on `BB`, counts on 32 bits. -/
def analyzeInt (s : State) (BB : BasicBlock) : State := (runOnBasicBlockInt s BB).2

/-- The state after the pass was called on each block of `bbs`, in order, counts on 32
bits. -/
def analyzeAllInt (s : State) (bbs : List BasicBlock) : State := bbs.foldl analyzeInt s

/-- The four counts of the record are values of an `int`. -/
def BBMetrics.isInt (r : BBMetrics) : Prop :=
  (INT_MIN ≤ r.SimpleInst ∧ r.SimpleInst ≤ INT_MAX) ∧
  (INT_MIN ≤ r.ComplexInst ∧ r.ComplexInst ≤ INT_MAX) ∧
  (INT_MIN ≤ r.MemoryInst ∧ r.MemoryInst ≤ INT_MAX) ∧
  (INT_MIN ≤ r.CallInst ∧ r.CallInst ≤ INT_MAX)

/-- The record `r` after one instruction `I` was classified into it on 32 bits. -/
def addInstInt (I : Instruction) (r : BBMetrics) : BBMetrics :=
  { SimpleInst := if specIsSimple I then incrInt r.SimpleInst else r.SimpleInst
    ComplexInst := if specIsComplex I then incrInt r.ComplexInst else r.ComplexInst
    MemoryInst := if specIsMemory I then incrInt r.MemoryInst else r.MemoryInst
    CallInst := if specIsCall I then incrInt r.CallInst else r.CallInst
    AvgDepDist := r.AvgDepDist }

/-- The record `r` with `n` times the reference counts of a sequence added to its four
counts in 32-bit arithmetic. -/
def addCountsInt (r : BBMetrics) (n : Nat) (insts : List Instruction) : BBMetrics :=
  { SimpleInst := wrapInt (r.SimpleInst + n * specSimpleCount insts)
    ComplexInst := wrapInt (r.ComplexInst + n * specComplexCount insts)
    MemoryInst := wrapInt (r.MemoryInst + n * specMemoryCount insts)
    CallInst := wrapInt (r.CallInst + n * specCallCount insts)
    AvgDepDist := r.AvgDepDist }

/-- The record `r` with each of its four counts multiplied by `n` in 32-bit
arithmetic. -/
def BBMetrics.scaleInt (n : Nat) (r : BBMetrics) : BBMetrics :=
  { SimpleInst := wrapInt (n * r.SimpleInst)
    ComplexInst := wrapInt (n * r.ComplexInst)
    MemoryInst := wrapInt (n * r.MemoryInst)
    CallInst := wrapInt (n * r.CallInst)
    AvgDepDist := r.AvgDepDist }

/-- A block of `n` `add` instructions. -/
def addsBlock (n : Nat) : BasicBlock :=
  ⟨7, (List.range n).map (fun i => mkInst (1000 + i) .Add)⟩

/-- A block of 65536 `add` instructions. -/
def manyAddsBlock : BasicBlock := addsBlock 65536

/-! ## The pass as steps on the memory it can reach -/

/-- The memory a call of the pass can reach: the pass object with the two counters, and
the block `BB` it receives by (non-const) reference. -/
structure World where
  pass : State
  block : BasicBlock
  deriving Repr

/-- The statement `++BBCount;`. -/
def World.incrBBCount (w : World) : World :=
  { w with pass := { w.pass with BBCount := Statistic.incr w.pass.BBCount } }

/-- The statement `++ActualBBCount;`. -/
def World.incrActualBBCount (w : World) : World :=
  { w with pass := { w.pass with ActualBBCount := Statistic.incr w.pass.ActualBBCount } }

/-- One iteration of the loop with the iterator `I` at position `i`: the instruction
`II` is read from the block as it stands and dispatched on; the only write is to
`BBMetricsMap`. -/
def World.visitAt (w : World) (i : Nat) : World :=
  match w.block.insts.get? i with
  | some II =>
    { w with pass :=
        { w.pass with BBMetricsMap := visit w.block.key w.pass.BBMetricsMap II } }
  | none => w

/-- The loop `for (I = BB.begin(), E = BB.end(); I != E; ++I)`, from the iterator at
position `i` with `todo` instructions left before `E`. -/
def World.loop : World → Nat → Nat → World
  | w, _, 0 => w
  | w, i, todo + 1 => World.loop (w.visitAt i) (i + 1) todo

/-- The pass body `AnalyzeBB::runOnBasicBlock`, statement by statement, on the memory it
can reach: the returned flag and the memory after the call. -/
def runOnBasicBlockW (w : World) : Bool × World :=
  let w1 := w.incrBBCount
  if w1.block.size < MIN_BB_SIZE then
    (false, w1)
  else
    let w2 := w1.incrActualBBCount
    (false, World.loop w2 0 w2.block.size)

/-! ## Auxiliary definitions for the proofs -/

/-- The record `r` after one instruction `I` was classified into it: the count of the
category of `I` (in the specification's terms) goes up by one. -/
def addInst (I : Instruction) (r : BBMetrics) : BBMetrics :=
  { SimpleInst := r.SimpleInst + (if specIsSimple I then 1 else 0)
    ComplexInst := r.ComplexInst + (if specIsComplex I then 1 else 0)
    MemoryInst := r.MemoryInst + (if specIsMemory I then 1 else 0)
    CallInst := r.CallInst + (if specIsCall I then 1 else 0)
    AvgDepDist := r.AvgDepDist }

/-- The record `r` with the reference counts of a sequence added to its four counts. -/
def addCounts (r : BBMetrics) (insts : List Instruction) : BBMetrics :=
  { SimpleInst := r.SimpleInst + specSimpleCount insts
    ComplexInst := r.ComplexInst + specComplexCount insts
    MemoryInst := r.MemoryInst + specMemoryCount insts
    CallInst := r.CallInst + specCallCount insts
    AvgDepDist := r.AvgDepDist }

/-- The record stored for `k`, or the value-initialised record when there is none. -/
def DenseMap.lookupD (m : DenseMap) (k : Nat) : BBMetrics := (m.lookup k).getD BBMetrics.zero

/-- The four counts of a record. -/
def BBMetrics.counts (r : BBMetrics) : Int × Int × Int × Int :=
  (r.SimpleInst, r.ComplexInst, r.MemoryInst, r.CallInst)

/-- Two states hold the same metrics table, read as a map (the same record, or none,
under every key, and the same number of records), and the same two counters. -/
def State.same (s t : State) : Prop :=
  (∀ k, s.BBMetricsMap.lookup k = t.BBMetricsMap.lookup k) ∧
  s.BBMetricsMap.length = t.BBMetricsMap.length ∧
  s.BBCount = t.BBCount ∧ s.ActualBBCount = t.ActualBBCount

/-- The block `call, store, load, mul, add, add`: the instructions of `sixMixedBlock` in
reverse order, under the same key. -/
def sixMixedReversedBlock : BasicBlock := ⟨1, sixMixedBlock.insts.reverse⟩

/-- The block `add, add, mul, load, store, call` under the key of `sixMixedBlock`, with
other instruction identities and operands. -/
def sixMixedOperandsBlock : BasicBlock :=
  ⟨1, [⟨70, .Add, [100, 101]⟩, ⟨71, .Add, [70, 70]⟩, ⟨72, .Mul, [70, 71]⟩,
       ⟨73, .Load, [102]⟩, ⟨74, .Store, [72, 102]⟩, ⟨75, .Call, [103, 73]⟩]⟩

/-! ## Lemmas on the table -/

theorem lookup_update_self (m : DenseMap) (k : Nat) (f : BBMetrics → BBMetrics) :
    (m.update k f).lookup k = some (f (m.lookupD k)) := by
  induction m with
  | nil => simp [DenseMap.update, DenseMap.lookup, DenseMap.lookupD]
  | cons e m ih =>
    obtain ⟨k', r⟩ := e
    by_cases h : k' = k
    · simp [DenseMap.update, DenseMap.lookup, DenseMap.lookupD, h]
    · simpa [DenseMap.update, DenseMap.lookup, DenseMap.lookupD, h] using ih

theorem lookup_update_ne (m : DenseMap) (k k' : Nat) (f : BBMetrics → BBMetrics)
    (h : k ≠ k') : (m.update k f).lookup k' = m.lookup k' := by
  induction m with
  | nil => simp [DenseMap.update, DenseMap.lookup, h]
  | cons e m ih =>
    obtain ⟨k0, r⟩ := e
    by_cases h0 : k0 = k
    · subst h0
      simp [DenseMap.update, DenseMap.lookup, h]
    · by_cases h1 : k0 = k'
      · subst h1
        simp [DenseMap.update, DenseMap.lookup, h0]
      · simpa [DenseMap.update, DenseMap.lookup, h0, h1] using ih

/-! ## Lemmas on the loop -/

/-- The `switch` of the source agrees with the specification's dispatch. -/
theorem visit_eq (key : Nat) (m : DenseMap) (I : Instruction) :
    visit key m I = if specIsCounted I then m.update key (addInst I) else m := by
  obtain ⟨id, op, ops⟩ := I
  cases op <;>
    simp [visit, specIsCounted, specIsComplex, specIsMemory, specIsCall, specIsSimple,
      isComplexOpcode, isMemoryOpcode, isCallOpcode, isSimpleOpcode,
      complexOpcodes, memoryOpcodes, callOpcodes, isBinaryOp, isCmpInst] <;>
    (congr 1; funext r
     simp [addInst, specIsComplex, specIsMemory, specIsCall, specIsSimple,
      isComplexOpcode, isMemoryOpcode, isCallOpcode, isSimpleOpcode,
      complexOpcodes, memoryOpcodes, callOpcodes, isBinaryOp, isCmpInst])

theorem lookup_visit_ne (key k' : Nat) (m : DenseMap) (I : Instruction) (h : key ≠ k') :
    (visit key m I).lookup k' = m.lookup k' := by
  rw [visit_eq]
  split
  · exact lookup_update_ne m key k' _ h
  · rfl

theorem lookup_foldl_visit_ne (key k' : Nat) (insts : List Instruction) (h : key ≠ k') :
    ∀ m : DenseMap, (insts.foldl (visit key) m).lookup k' = m.lookup k' := by
  induction insts with
  | nil => intro m; rfl
  | cons I rest ih =>
    intro m
    rw [List.foldl_cons, ih, lookup_visit_ne key k' m I h]

theorem specIsSimple_counted (I : Instruction) (h : specIsSimple I = true) :
    specIsCounted I = true := by
  simp [specIsCounted, h]

theorem specIsComplex_counted (I : Instruction) (h : specIsComplex I = true) :
    specIsCounted I = true := by
  simp [specIsCounted, h]

theorem specIsMemory_counted (I : Instruction) (h : specIsMemory I = true) :
    specIsCounted I = true := by
  simp [specIsCounted, h]

theorem specIsCall_counted (I : Instruction) (h : specIsCall I = true) :
    specIsCounted I = true := by
  simp [specIsCounted, h]

/-- A sequence without counted instruction has all four reference counts zero. -/
theorem counts_eq_zero_of_not_counted (insts : List Instruction)
    (h : insts.any specIsCounted = false) :
    specSimpleCount insts = 0 ∧ specComplexCount insts = 0 ∧
      specMemoryCount insts = 0 ∧ specCallCount insts = 0 := by
  have hall : ∀ I ∈ insts, specIsCounted I = false := by
    intro I hI
    by_contra hc
    have : insts.any specIsCounted = true := List.any_eq_true.mpr ⟨I, hI, by simpa using hc⟩
    rw [h] at this
    exact Bool.noConfusion this
  refine ⟨?_, ?_, ?_, ?_⟩
  · refine List.countP_eq_zero.mpr fun I hI hs => ?_
    have := specIsSimple_counted I hs
    rw [hall I hI] at this
    exact Bool.noConfusion this
  · refine List.countP_eq_zero.mpr fun I hI hs => ?_
    have := specIsComplex_counted I hs
    rw [hall I hI] at this
    exact Bool.noConfusion this
  · refine List.countP_eq_zero.mpr fun I hI hs => ?_
    have := specIsMemory_counted I hs
    rw [hall I hI] at this
    exact Bool.noConfusion this
  · refine List.countP_eq_zero.mpr fun I hI hs => ?_
    have := specIsCall_counted I hs
    rw [hall I hI] at this
    exact Bool.noConfusion this

theorem addCounts_of_not_counted (r : BBMetrics) (insts : List Instruction)
    (h : insts.any specIsCounted = false) : addCounts r insts = r := by
  obtain ⟨h1, h2, h3, h4⟩ := counts_eq_zero_of_not_counted insts h
  simp [addCounts, h1, h2, h3, h4]

theorem addInst_of_not_counted (r : BBMetrics) (I : Instruction)
    (h : specIsCounted I = false) : addInst I r = r := by
  simp only [specIsCounted, Bool.or_eq_false_iff] at h
  obtain ⟨⟨⟨h1, h2⟩, h3⟩, h4⟩ := h
  simp [addInst, h1, h2, h3, h4]

theorem addCounts_addInst (r : BBMetrics) (I : Instruction) (rest : List Instruction) :
    addCounts (addInst I r) rest = addCounts r (I :: rest) := by
  simp only [addCounts, addInst, specSimpleCount, specComplexCount, specMemoryCount,
    specCallCount, List.countP_cons, BBMetrics.mk.injEq, and_true]
  refine ⟨?_, ?_, ?_, ?_⟩ <;> split <;> push_cast <;> ring

/-- The loop of the source, seen from the key of the block: nothing happens to the entry
when no instruction is counted; otherwise the entry exists afterwards and holds the
entry before (value-initialised when absent) plus the reference counts. -/
theorem lookup_foldl_visit (key : Nat) (insts : List Instruction) :
    ∀ m : DenseMap, (insts.foldl (visit key) m).lookup key =
      if insts.any specIsCounted then some (addCounts (m.lookupD key) insts)
      else m.lookup key := by
  induction insts with
  | nil => intro m; simp
  | cons I rest ih =>
    intro m
    rw [List.foldl_cons, ih, visit_eq]
    by_cases hI : specIsCounted I = true
    · have hl : (m.update key (addInst I)).lookupD key = addInst I (m.lookupD key) := by
        simp [DenseMap.lookupD, lookup_update_self]
      simp only [hI, if_true, List.any_cons, Bool.true_or, hl, addCounts_addInst,
        lookup_update_self]
      split
      · rfl
      · rename_i hr
        have hr' : rest.any specIsCounted = false := by simpa using hr
        rw [← addCounts_addInst, addCounts_of_not_counted _ rest hr']
    · have hI' : specIsCounted I = false := by simpa using hI
      have ha : addCounts (m.lookupD key) (I :: rest) = addCounts (m.lookupD key) rest := by
        rw [← addCounts_addInst, addInst_of_not_counted _ _ hI']
      simp only [hI', List.any_cons, Bool.false_or, ha]
      simp

theorem analyze_small (s : State) (BB : BasicBlock) (h : BB.insts.length < 5) :
    analyze s BB = { s with BBCount := s.BBCount + 1 } := by
  simp [analyze, runOnBasicBlock, BasicBlock.size, MIN_BB_SIZE, h, Statistic.incr]

theorem analyze_big (s : State) (BB : BasicBlock) (h : 5 ≤ BB.insts.length) :
    analyze s BB =
      { BBMetricsMap := BB.insts.foldl (visit BB.key) s.BBMetricsMap
        BBCount := s.BBCount + 1
        ActualBBCount := s.ActualBBCount + 1 } := by
  have h' : ¬ BB.insts.length < 5 := by omega
  simp [analyze, runOnBasicBlock, BasicBlock.size, MIN_BB_SIZE, h', Statistic.incr]

/-- The entry of an admitted block after the call, in terms of the entry before. -/
theorem lookup_analyze_big (s : State) (BB : BasicBlock) (h : 5 ≤ BB.insts.length) :
    (analyze s BB).BBMetricsMap.lookup BB.key =
      if BB.insts.any specIsCounted then
        some (addCounts (s.BBMetricsMap.lookupD BB.key) BB.insts)
      else s.BBMetricsMap.lookup BB.key := by
  rw [analyze_big s BB h]
  exact lookup_foldl_visit BB.key BB.insts s.BBMetricsMap

/-- The entries of the other blocks are not touched by a call. -/
theorem lookup_analyze_ne (s : State) (BB : BasicBlock) (k : Nat) (h : BB.key ≠ k) :
    (analyze s BB).BBMetricsMap.lookup k = s.BBMetricsMap.lookup k := by
  by_cases hs : BB.insts.length < 5
  · rw [analyze_small s BB hs]
  · rw [analyze_big s BB (by omega)]
    exact lookup_foldl_visit_ne BB.key k BB.insts h s.BBMetricsMap

theorem specCounts_map (insts : List Instruction) :
    specSimpleCount insts = (insts.map (fun I => I.opcode)).countP isSimpleOpcode ∧
    specComplexCount insts = (insts.map (fun I => I.opcode)).countP isComplexOpcode ∧
    specMemoryCount insts = (insts.map (fun I => I.opcode)).countP isMemoryOpcode ∧
    specCallCount insts = (insts.map (fun I => I.opcode)).countP isCallOpcode := by
  simp only [List.countP_map]
  exact ⟨rfl, rfl, rfl, rfl⟩

theorem any_counted_map (insts : List Instruction) :
    insts.any specIsCounted =
      (insts.map (fun I => I.opcode)).any
        (fun op => isComplexOpcode op || isMemoryOpcode op || isCallOpcode op ||
          isSimpleOpcode op) := by
  induction insts with
  | nil => rfl
  | cons I rest ih =>
    rw [List.any_cons, List.map_cons, List.any_cons, ih]
    rfl

/-! ## Lemmas on the pass with 32-bit counts -/

theorem wrapInt_isInt (x : Int) : INT_MIN ≤ wrapInt x ∧ wrapInt x ≤ INT_MAX := by
  simp only [wrapInt, INT_MIN, INT_MAX]
  omega

theorem wrapInt_eq_self (x : Int) (h1 : INT_MIN ≤ x) (h2 : x ≤ INT_MAX) : wrapInt x = x := by
  simp only [wrapInt, INT_MIN, INT_MAX] at *
  omega

theorem wrapInt_add_left (a b : Int) : wrapInt (wrapInt a + b) = wrapInt (a + b) := by
  simp only [wrapInt]
  omega

theorem wrapInt_emod (x : Int) : wrapInt x % 4294967296 = x % 4294967296 := by
  simp only [wrapInt]
  omega

theorem wrapInt_congr (a b : Int) (h : a % 4294967296 = b % 4294967296) :
    wrapInt a = wrapInt b := by
  simp only [wrapInt]
  omega

theorem wrapInt_mul (n x : Int) : wrapInt (n * wrapInt x) = wrapInt (n * x) := by
  apply wrapInt_congr
  rw [Int.mul_emod, wrapInt_emod, ← Int.mul_emod]

theorem isInt_zero : BBMetrics.zero.isInt := by
  simp [BBMetrics.isInt, BBMetrics.zero, INT_MIN, INT_MAX]

theorem isInt_addInstInt (I : Instruction) (r : BBMetrics) (h : r.isInt) :
    (addInstInt I r).isInt := by
  obtain ⟨h1, h2, h3, h4⟩ := h
  refine ⟨?_, ?_, ?_, ?_⟩ <;> simp only [addInstInt] <;> split <;>
    first | exact wrapInt_isInt _ | assumption

theorem isInt_addCountsInt (r : BBMetrics) (n : Nat) (insts : List Instruction) :
    (addCountsInt r n insts).isInt :=
  ⟨wrapInt_isInt _, wrapInt_isInt _, wrapInt_isInt _, wrapInt_isInt _⟩

theorem isInt_lookupD (m : DenseMap) (k : Nat)
    (h : ∀ r, m.lookup k = some r → r.isInt) : (m.lookupD k).isInt := by
  cases hl : m.lookup k with
  | none => simpa [DenseMap.lookupD, hl] using isInt_zero
  | some r => simpa [DenseMap.lookupD, hl] using h r hl

/-- The `switch` of the source on 32 bits agrees with the specification's dispatch. -/
theorem visitInt_eq (key : Nat) (m : DenseMap) (I : Instruction) :
    visitInt key m I = if specIsCounted I then m.update key (addInstInt I) else m := by
  obtain ⟨id, op, ops⟩ := I
  cases op <;>
    simp [visitInt, specIsCounted, specIsComplex, specIsMemory, specIsCall, specIsSimple,
      isComplexOpcode, isMemoryOpcode, isCallOpcode, isSimpleOpcode,
      complexOpcodes, memoryOpcodes, callOpcodes, isBinaryOp, isCmpInst] <;>
    rfl

theorem addInstInt_of_not_counted (r : BBMetrics) (I : Instruction)
    (h : specIsCounted I = false) : addInstInt I r = r := by
  simp only [specIsCounted, Bool.or_eq_false_iff] at h
  obtain ⟨⟨⟨h1, h2⟩, h3⟩, h4⟩ := h
  simp [addInstInt, h1, h2, h3, h4]

/-- Classifying one more instruction on 32 bits, then adding the counts of a sequence. -/
theorem addCountsInt_addInstInt (r : BBMetrics) (I : Instruction)
    (rest : List Instruction) :
    addCountsInt (addInstInt I r) 1 rest = addCountsInt r 1 (I :: rest) := by
  simp only [addCountsInt, addInstInt, specSimpleCount, specComplexCount, specMemoryCount,
    specCallCount, List.countP_cons, BBMetrics.mk.injEq, and_true, incrInt]
  refine ⟨?_, ?_, ?_, ?_⟩ <;> split <;> (try simp only [wrapInt_add_left]) <;>
    congr 1 <;> push_cast <;> ring

theorem addCountsInt_of_not_counted (r : BBMetrics) (n : Nat) (insts : List Instruction)
    (hr : r.isInt) (h : insts.any specIsCounted = false) : addCountsInt r n insts = r := by
  obtain ⟨h1, h2, h3, h4⟩ := counts_eq_zero_of_not_counted insts h
  obtain ⟨⟨a1, a2⟩, ⟨b1, b2⟩, ⟨c1, c2⟩, ⟨d1, d2⟩⟩ := hr
  simp [addCountsInt, h1, h2, h3, h4, wrapInt_eq_self, a1, a2, b1, b2, c1, c2, d1, d2]

/-- The loop on 32 bits, seen from the key of the block, when the entry before holds
`int` values (or is absent). -/
theorem lookup_foldl_visitInt (key : Nat) (insts : List Instruction) :
    ∀ m : DenseMap, (m.lookupD key).isInt →
      (insts.foldl (visitInt key) m).lookup key =
        if insts.any specIsCounted then some (addCountsInt (m.lookupD key) 1 insts)
        else m.lookup key := by
  induction insts with
  | nil => intro m _; simp
  | cons I rest ih =>
    intro m hm
    rw [List.foldl_cons, visitInt_eq]
    by_cases hI : specIsCounted I = true
    · have hl : (m.update key (addInstInt I)).lookupD key = addInstInt I (m.lookupD key) := by
        simp [DenseMap.lookupD, lookup_update_self]
      have hint : ((m.update key (addInstInt I)).lookupD key).isInt := by
        rw [hl]; exact isInt_addInstInt I _ hm
      simp only [hI, if_true]
      rw [ih _ hint, hl]
      simp only [List.any_cons, hI, Bool.true_or, if_true, addCountsInt_addInstInt,
        lookup_update_self]
      split
      · rfl
      · rename_i hr
        have hr' : rest.any specIsCounted = false := by simpa using hr
        rw [← addCountsInt_addInstInt,
          addCountsInt_of_not_counted _ 1 rest (isInt_addInstInt I _ hm) hr']
    · have hI' : specIsCounted I = false := by simpa using hI
      have ha : addCountsInt (m.lookupD key) 1 (I :: rest) =
          addCountsInt (m.lookupD key) 1 rest := by
        rw [← addCountsInt_addInstInt, addInstInt_of_not_counted _ _ hI']
      simp only [hI', Bool.false_eq_true, if_false]
      rw [ih m hm]
      simp only [List.any_cons, hI', Bool.false_or, ha]

theorem analyzeInt_small (s : State) (BB : BasicBlock) (h : BB.insts.length < 5) :
    analyzeInt s BB = { s with BBCount := s.BBCount + 1 } := by
  simp [analyzeInt, runOnBasicBlockInt, BasicBlock.size, MIN_BB_SIZE, h, Statistic.incr]

theorem analyzeInt_big (s : State) (BB : BasicBlock) (h : 5 ≤ BB.insts.length) :
    analyzeInt s BB =
      { BBMetricsMap := BB.insts.foldl (visitInt BB.key) s.BBMetricsMap
        BBCount := s.BBCount + 1
        ActualBBCount := s.ActualBBCount + 1 } := by
  have h' : ¬ BB.insts.length < 5 := by omega
  simp [analyzeInt, runOnBasicBlockInt, BasicBlock.size, MIN_BB_SIZE, h', Statistic.incr]

/-- The entry of an admitted block after a call on 32 bits. -/
theorem lookup_analyzeInt_big (s : State) (BB : BasicBlock) (h : 5 ≤ BB.insts.length)
    (hint : (s.BBMetricsMap.lookupD BB.key).isInt) :
    (analyzeInt s BB).BBMetricsMap.lookup BB.key =
      if BB.insts.any specIsCounted then
        some (addCountsInt (s.BBMetricsMap.lookupD BB.key) 1 BB.insts)
      else s.BBMetricsMap.lookup BB.key := by
  rw [analyzeInt_big s BB h]
  exact lookup_foldl_visitInt BB.key BB.insts s.BBMetricsMap hint

/-- The entry of an admitted block after `n + 1` consecutive calls on it, on 32 bits. -/
theorem lookup_analyzeAllInt_replicate (BB : BasicBlock) (hsize : 5 ≤ BB.insts.length)
    (n : Nat) : ∀ s : State, (s.BBMetricsMap.lookupD BB.key).isInt →
    (analyzeAllInt s (List.replicate (n + 1) BB)).BBMetricsMap.lookup BB.key =
      if BB.insts.any specIsCounted = true then
        some (addCountsInt (s.BBMetricsMap.lookupD BB.key) (n + 1) BB.insts)
      else s.BBMetricsMap.lookup BB.key := by
  induction n with
  | zero =>
    intro s hint
    have h1 : analyzeAllInt s (List.replicate (0 + 1) BB) = analyzeInt s BB := rfl
    rw [h1, lookup_analyzeInt_big s BB hsize hint]
  | succ n ih =>
    intro s hint
    have h1 : analyzeAllInt s (List.replicate (n + 1 + 1) BB) =
        analyzeAllInt (analyzeInt s BB) (List.replicate (n + 1) BB) := rfl
    have hl := lookup_analyzeInt_big s BB hsize hint
    by_cases hc : BB.insts.any specIsCounted = true
    · simp only [hc, if_true] at hl
      have hD : (analyzeInt s BB).BBMetricsMap.lookupD BB.key =
          addCountsInt (s.BBMetricsMap.lookupD BB.key) 1 BB.insts := by
        simp [DenseMap.lookupD, hl]
      rw [h1, ih (analyzeInt s BB) (by rw [hD]; exact isInt_addCountsInt _ _ _), hD]
      simp only [hc, if_true, addCountsInt, Option.some.injEq, BBMetrics.mk.injEq,
        and_true, wrapInt_add_left]
      refine ⟨?_, ?_, ?_, ?_⟩ <;> congr 1 <;> push_cast <;> ring
    · simp only [hc, if_false] at hl
      have hD : (analyzeInt s BB).BBMetricsMap.lookupD BB.key =
          s.BBMetricsMap.lookupD BB.key := by
        simp [DenseMap.lookupD, hl]
      rw [h1, ih (analyzeInt s BB) (by rw [hD]; exact hint), hl]
      simp [hc]

/-- The counter of analysed blocks after consecutive calls on an admitted block. -/
theorem actualBBCount_analyzeAllInt_replicate (BB : BasicBlock)
    (hsize : 5 ≤ BB.insts.length) (n : Nat) :
    ∀ s : State, (analyzeAllInt s (List.replicate n BB)).ActualBBCount =
      s.ActualBBCount + n := by
  induction n with
  | zero => intro s; rfl
  | succ n ih =>
    intro s
    have h1 : analyzeAllInt s (List.replicate (n + 1) BB) =
        analyzeAllInt (analyzeInt s BB) (List.replicate n BB) := rfl
    rw [h1, ih, analyzeInt_big s BB hsize]
    simp only
    omega

/-- A call on 32 bits keeps the counts of the entry of the block within `int`. -/
theorem isInt_lookup_analyzeInt (s : State) (BB : BasicBlock)
    (hint : ∀ r0, s.BBMetricsMap.lookup BB.key = some r0 → r0.isInt) :
    ∀ r1, (analyzeInt s BB).BBMetricsMap.lookup BB.key = some r1 → r1.isInt := by
  intro r1 h1
  by_cases hs : BB.insts.length < 5
  · rw [analyzeInt_small s BB hs] at h1
    exact hint r1 h1
  · rw [lookup_analyzeInt_big s BB (by omega) (isInt_lookupD _ _ hint)] at h1
    split at h1
    · cases h1
      exact isInt_addCountsInt _ _ _
    · exact hint r1 h1

/-- A call on 32 bits on an admitted block that has an entry adds the counts of the
block to that entry. -/
theorem lookup_analyzeInt_of_some (s : State) (BB : BasicBlock)
    (hsize : 5 ≤ BB.insts.length) (r1 : BBMetrics)
    (h : s.BBMetricsMap.lookup BB.key = some r1) (hr1 : r1.isInt) :
    (analyzeInt s BB).BBMetricsMap.lookup BB.key =
      some (addCountsInt r1 1 BB.insts) := by
  have hD : s.BBMetricsMap.lookupD BB.key = r1 := by simp [DenseMap.lookupD, h]
  rw [lookup_analyzeInt_big s BB hsize (by rw [hD]; exact hr1), hD, h]
  split
  · rfl
  · rename_i hc
    have hc' : BB.insts.any specIsCounted = false := by simpa using hc
    rw [addCountsInt_of_not_counted r1 1 BB.insts hr1 hc']

/-- Adding the counts of a block on 32 bits leaves a record of `int` values as it is
exactly when each count is a multiple of `2^32`. -/
theorem addCountsInt_eq_self_iff (r : BBMetrics) (insts : List Instruction)
    (hr : r.isInt) :
    addCountsInt r 1 insts = r ↔
      (4294967296 ∣ specSimpleCount insts ∧ 4294967296 ∣ specComplexCount insts ∧
        4294967296 ∣ specMemoryCount insts ∧ 4294967296 ∣ specCallCount insts) := by
  obtain ⟨⟨a1, a2⟩, ⟨b1, b2⟩, ⟨c1, c2⟩, ⟨d1, d2⟩⟩ := hr
  obtain ⟨x1, x2, x3, x4, x5⟩ := r
  simp only [addCountsInt, BBMetrics.mk.injEq, and_true, wrapInt, INT_MIN, INT_MAX,
    Nat.cast_one, one_mul] at *
  omega

/-! ## The claims -/

/-- C1: for every block with at least 5 instructions, analysed from a state holding no
record for that block, the four counts of the resulting record equal the reference counts
(complex: mul, fmul, udiv, sdiv, fdiv, urem, srem, frem; memory: store, load, atomic
cmpxchg, atomic rmw, getelementptr; call: call, invoke; simple: the remaining binary
operators and comparisons), and the record exists as soon as one instruction is counted.
In particular `add, add, mul, load, store, call` gives simple=2, complex=1, memory=2,
call=1, and five `icmp` give simple=5 and the other three counts 0, whatever the
operands. -/
theorem C1_counts_equal_reference (s : State) (BB : BasicBlock)
    (hsize : 5 ≤ BB.insts.length) (hnone : s.BBMetricsMap.lookup BB.key = none) :
    (∀ r, (analyze s BB).BBMetricsMap.lookup BB.key = some r →
        r.SimpleInst = specSimpleCount BB.insts ∧
        r.ComplexInst = specComplexCount BB.insts ∧
        r.MemoryInst = specMemoryCount BB.insts ∧
        r.CallInst = specCallCount BB.insts) ∧
    (BB.insts.any specIsCounted = true →
        ∃ r, (analyze s BB).BBMetricsMap.lookup BB.key = some r) ∧
    (BB.insts.map (fun I => I.opcode) = [.Add, .Add, .Mul, .Load, .Store, .Call] →
        ((analyze s BB).BBMetricsMap.lookup BB.key).map BBMetrics.counts
          = some (2, 1, 2, 1)) ∧
    (BB.insts.map (fun I => I.opcode) = [.ICmp, .ICmp, .ICmp, .ICmp, .ICmp] →
        ((analyze s BB).BBMetricsMap.lookup BB.key).map BBMetrics.counts
          = some (5, 0, 0, 0)) := by
  have hD : s.BBMetricsMap.lookupD BB.key = BBMetrics.zero := by
    simp [DenseMap.lookupD, hnone]
  have hl := lookup_analyze_big s BB hsize
  rw [hD, hnone] at hl
  obtain ⟨c1, c2, c3, c4⟩ := specCounts_map BB.insts
  have ha := any_counted_map BB.insts
  refine ⟨?_, ?_, ?_, ?_⟩
  · intro r hr
    rw [hl] at hr
    split at hr
    · cases hr
      simp [addCounts, BBMetrics.zero]
    · cases hr
  · intro hc
    rw [hl, hc]
    exact ⟨_, rfl⟩
  · intro hops
    rw [hops] at c1 c2 c3 c4 ha
    have hc : BB.insts.any specIsCounted = true := by rw [ha]; decide
    have e1 : specSimpleCount BB.insts = 2 := by rw [c1]; decide
    have e2 : specComplexCount BB.insts = 1 := by rw [c2]; decide
    have e3 : specMemoryCount BB.insts = 2 := by rw [c3]; decide
    have e4 : specCallCount BB.insts = 1 := by rw [c4]; decide
    rw [hl, hc]
    simp [addCounts, BBMetrics.zero, BBMetrics.counts, e1, e2, e3, e4]
  · intro hops
    rw [hops] at c1 c2 c3 c4 ha
    have hc : BB.insts.any specIsCounted = true := by rw [ha]; decide
    have e1 : specSimpleCount BB.insts = 5 := by rw [c1]; decide
    have e2 : specComplexCount BB.insts = 0 := by rw [c2]; decide
    have e3 : specMemoryCount BB.insts = 0 := by rw [c3]; decide
    have e4 : specCallCount BB.insts = 0 := by rw [c4]; decide
    rw [hl, hc]
    simp [addCounts, BBMetrics.zero, BBMetrics.counts, e1, e2, e3, e4]

/-- Witness of C1 on the block `add, add, mul, load, store, call`, from the initial
state. -/
theorem C1_counts_equal_reference_witness :
    5 ≤ sixMixedBlock.insts.length ∧
    State.init.BBMetricsMap.lookup sixMixedBlock.key = none ∧
    ((analyze State.init sixMixedBlock).BBMetricsMap.lookup sixMixedBlock.key).map
      BBMetrics.counts = some (2, 1, 2, 1) :=
  ⟨by decide, by decide,
    (C1_counts_equal_reference State.init sixMixedBlock (by decide) (by decide)).2.2.1
      (by decide)⟩

/-- C2: for every block with fewer than 5 instructions and every prior state, the call
leaves the metrics table unchanged (so no record is created for the block), increments
`BBCount` by exactly one and leaves `ActualBBCount` unchanged. -/
theorem C2_below_threshold (s : State) (BB : BasicBlock) (h : BB.insts.length < 5) :
    (analyze s BB).BBMetricsMap = s.BBMetricsMap ∧
    (analyze s BB).BBMetricsMap.lookup BB.key = s.BBMetricsMap.lookup BB.key ∧
    (analyze s BB).BBCount = s.BBCount + 1 ∧
    (analyze s BB).ActualBBCount = s.ActualBBCount := by
  rw [analyze_small s BB h]
  exact ⟨rfl, rfl, rfl, rfl⟩

/-- Witness of C2 on a block of four instructions (and the empty block is below the
threshold too). -/
theorem C2_below_threshold_witness :
    fourAddBlock.insts.length < 5 ∧
    (analyze State.init fourAddBlock).BBMetricsMap = [] ∧
    (analyze State.init fourAddBlock).BBCount = 1 ∧
    (analyze State.init fourAddBlock).ActualBBCount = 0 :=
  ⟨by decide,
    (C2_below_threshold State.init fourAddBlock (by decide)).1,
    (C2_below_threshold State.init fourAddBlock (by decide)).2.2.1,
    (C2_below_threshold State.init fourAddBlock (by decide)).2.2.2⟩

/-- A record exists after a call exactly when it existed before or the call was on an
admitted block with that key holding a counted instruction. -/
theorem isSome_lookup_analyze (s : State) (BB : BasicBlock) (k : Nat) :
    ((analyze s BB).BBMetricsMap.lookup k).isSome = true ↔
      (s.BBMetricsMap.lookup k).isSome = true ∨
      (BB.key = k ∧ 5 ≤ BB.insts.length ∧ BB.insts.any specIsCounted = true) := by
  by_cases hk : BB.key = k
  · subst hk
    by_cases hs : BB.insts.length < 5
    · rw [analyze_small s BB hs]
      constructor
      · intro h; exact Or.inl h
      · rintro (h | ⟨_, h5, _⟩)
        · exact h
        · omega
    · have h5 : 5 ≤ BB.insts.length := by omega
      rw [lookup_analyze_big s BB h5]
      by_cases hc : BB.insts.any specIsCounted = true
      · simp [hc, h5]
      · simp [hc]
  · rw [lookup_analyze_ne s BB k hk]
    constructor
    · intro h; exact Or.inl h
    · rintro (h | ⟨h, _⟩)
      · exact h
      · exact absurd h hk

theorem isSome_lookup_analyzeAll (bbs : List BasicBlock) (k : Nat) :
    ∀ s : State, ((analyzeAll s bbs).BBMetricsMap.lookup k).isSome = true ↔
      (s.BBMetricsMap.lookup k).isSome = true ∨
      ∃ BB ∈ bbs, BB.key = k ∧ 5 ≤ BB.insts.length ∧ BB.insts.any specIsCounted = true := by
  induction bbs with
  | nil => intro s; simp [analyzeAll]
  | cons B rest ih =>
    intro s
    have hstep : analyzeAll s (B :: rest) = analyzeAll (analyze s B) rest := rfl
    rw [hstep, ih, isSome_lookup_analyze]
    constructor
    · rintro ((h | h) | ⟨B', hB', h⟩)
      · exact Or.inl h
      · exact Or.inr ⟨B, List.mem_cons_self _ _, h⟩
      · exact Or.inr ⟨B', List.mem_cons_of_mem _ hB', h⟩
    · rintro (h | ⟨B', hB', h⟩)
      · exact Or.inl (Or.inl h)
      · rcases List.mem_cons.mp hB' with rfl | hr
        · exact Or.inl (Or.inr h)
        · exact Or.inr ⟨B', hr, h⟩

/-- C3, as stated, fails: a block of five casts is presented and has five instructions,
yet no record exists for it afterwards. -/
theorem C3_counterexample :
    ¬ (((analyzeAll State.init [fiveCastBlock]).BBMetricsMap.lookup
          fiveCastBlock.key).isSome = true ↔
        ∃ BB ∈ [fiveCastBlock], BB.key = fiveCastBlock.key ∧ 5 ≤ BB.insts.length) := by
  intro h
  have hsome := h.mpr ⟨fiveCastBlock, List.mem_cons_self _ _, rfl, by decide⟩
  revert hsome
  decide

/-- C3, amended: after any sequence of calls starting from an empty metrics table, a
record exists for a key if and only if a block with that key was presented that has at
least 5 instructions and at least one instruction of a counted category (complex,
memory, call, or a remaining binary operator or comparison).  In particular no block
presented only below the threshold has a record. -/
theorem C3_record_iff_admitted_and_counted (s : State) (bbs : List BasicBlock) (k : Nat)
    (hempty : s.BBMetricsMap = []) :
    ((analyzeAll s bbs).BBMetricsMap.lookup k).isSome = true ↔
      ∃ BB ∈ bbs, BB.key = k ∧ 5 ≤ BB.insts.length ∧ BB.insts.any specIsCounted = true := by
  rw [isSome_lookup_analyzeAll, hempty]
  simp [DenseMap.lookup]

/-- Witness of the amended C3: after the five-cast block, the four-instruction block and
the six-instruction block, the key of the latter has a record. -/
theorem C3_record_iff_admitted_and_counted_witness :
    State.init.BBMetricsMap = [] ∧
    ((analyzeAll State.init [fiveCastBlock, fourAddBlock, sixMixedBlock]).BBMetricsMap.lookup
        sixMixedBlock.key).isSome = true :=
  ⟨rfl, (C3_record_iff_admitted_and_counted State.init
      [fiveCastBlock, fourAddBlock, sixMixedBlock] sixMixedBlock.key rfl).mpr
      ⟨sixMixedBlock, by decide, rfl, by decide, by decide⟩⟩

/-- The four categories are mutually exclusive: an instruction adds one to the sum of the
four indicator values exactly when it is counted. -/
theorem category_sum (I : Instruction) :
    (if specIsSimple I then 1 else 0) + (if specIsComplex I then 1 else 0) +
      (if specIsMemory I then 1 else 0) + (if specIsCall I then 1 else 0)
      = (if specIsCounted I then 1 else 0 : Nat) := by
  obtain ⟨id, op, ops⟩ := I
  cases op <;>
    simp [specIsCounted, specIsComplex, specIsMemory, specIsCall, specIsSimple,
      isComplexOpcode, isMemoryOpcode, isCallOpcode, isSimpleOpcode,
      complexOpcodes, memoryOpcodes, callOpcodes, isBinaryOp, isCmpInst]

/-- The four reference counts add up to the number of counted instructions. -/
theorem counts_sum (insts : List Instruction) :
    specSimpleCount insts + specComplexCount insts + specMemoryCount insts +
      specCallCount insts = insts.countP specIsCounted := by
  induction insts with
  | nil => rfl
  | cons I rest ih =>
    have hI := category_sum I
    simp only [specSimpleCount, specComplexCount, specMemoryCount, specCallCount,
      List.countP_cons] at ih ⊢
    omega

/-- The two embeddings agree on the record a call creates: for an admitted block of at
most `INT_MAX` instructions and a state with no record for it, the entry after a call
with 32-bit counts is the entry after a call with exact counts. -/
theorem lookup_analyzeInt_eq_analyze (s : State) (BB : BasicBlock)
    (hsize : 5 ≤ BB.insts.length) (hlen : (BB.insts.length : Int) ≤ INT_MAX)
    (hnone : s.BBMetricsMap.lookup BB.key = none) :
    (analyzeInt s BB).BBMetricsMap.lookup BB.key =
      (analyze s BB).BBMetricsMap.lookup BB.key := by
  have hD : s.BBMetricsMap.lookupD BB.key = BBMetrics.zero := by
    simp [DenseMap.lookupD, hnone]
  rw [lookup_analyzeInt_big s BB hsize (by rw [hD]; exact isInt_zero),
    lookup_analyze_big s BB hsize, hD]
  have hsum := counts_sum BB.insts
  have hle : BB.insts.countP specIsCounted ≤ BB.insts.length := List.countP_le_length _
  split
  · simp only [addCountsInt, addCounts, BBMetrics.zero, zero_add, Nat.cast_one, one_mul,
      Option.some.injEq, BBMetrics.mk.injEq, and_true]
    refine ⟨?_, ?_, ?_, ?_⟩ <;> apply wrapInt_eq_self <;>
      simp only [INT_MIN, INT_MAX] at * <;> omega
  · rfl

/-- C4: for every admitted block analysed from a state with no record for it, the four
counts of its record sum to at most the instruction count of the block, with equality
exactly when every instruction of the block falls into one of the four categories; the
record exists as soon as one instruction is counted. -/
theorem C4_sum_le_instruction_count (s : State) (BB : BasicBlock)
    (hsize : 5 ≤ BB.insts.length) (hnone : s.BBMetricsMap.lookup BB.key = none) :
    (∀ r, (analyze s BB).BBMetricsMap.lookup BB.key = some r →
        r.SimpleInst + r.ComplexInst + r.MemoryInst + r.CallInst ≤ BB.insts.length ∧
        (r.SimpleInst + r.ComplexInst + r.MemoryInst + r.CallInst = BB.insts.length ↔
          ∀ I ∈ BB.insts, specIsCounted I = true)) ∧
    (BB.insts.any specIsCounted = true →
        ∃ r, (analyze s BB).BBMetricsMap.lookup BB.key = some r) := by
  have hD : s.BBMetricsMap.lookupD BB.key = BBMetrics.zero := by
    simp [DenseMap.lookupD, hnone]
  have hl := lookup_analyze_big s BB hsize
  rw [hD, hnone] at hl
  refine ⟨?_, ?_⟩
  · intro r hr
    rw [hl] at hr
    split at hr
    · cases hr
      have hsum := counts_sum BB.insts
      have hle : BB.insts.countP specIsCounted ≤ BB.insts.length := List.countP_le_length _
      have hiff : BB.insts.countP specIsCounted = BB.insts.length ↔
          ∀ I ∈ BB.insts, specIsCounted I = true := List.countP_eq_length
      simp only [addCounts, BBMetrics.zero, zero_add]
      refine ⟨by omega, ?_⟩
      rw [← hiff]
      omega
    · cases hr
  · intro hc
    rw [hl, hc]
    exact ⟨_, rfl⟩

/-- Witness of C4 on the block `add, add, mul, load, store, call`: all six instructions
are counted and the sum is 6. -/
theorem C4_sum_le_instruction_count_witness :
    5 ≤ sixMixedBlock.insts.length ∧
    State.init.BBMetricsMap.lookup sixMixedBlock.key = none ∧
    (analyze State.init sixMixedBlock).BBMetricsMap.lookup sixMixedBlock.key
      = some ⟨2, 1, 2, 1, 0⟩ ∧
    ((2 : Int) + 1 + 2 + 1 ≤ sixMixedBlock.insts.length ∧
      ((2 : Int) + 1 + 2 + 1 = sixMixedBlock.insts.length ↔
        ∀ I ∈ sixMixedBlock.insts, specIsCounted I = true)) :=
  ⟨by decide, by decide, by decide,
    (C4_sum_le_instruction_count State.init sixMixedBlock (by decide) (by decide)).1
      ⟨2, 1, 2, 1, 0⟩ (by decide)⟩

/-- C5, as stated, fails: a second run on `add, add, mul, load, store, call` leaves a
record different from the one after the first run (the counts are doubled), with the
counts taken exactly or on 32 bits. -/
theorem C5_counterexample :
    (analyze State.init sixMixedBlock).BBMetricsMap.lookup sixMixedBlock.key
      = some ⟨2, 1, 2, 1, 0⟩ ∧
    (analyze (analyze State.init sixMixedBlock) sixMixedBlock).BBMetricsMap.lookup
      sixMixedBlock.key = some ⟨4, 2, 4, 2, 0⟩ ∧
    (analyze (analyze State.init sixMixedBlock) sixMixedBlock).BBMetricsMap.lookup
      sixMixedBlock.key ≠
    (analyze State.init sixMixedBlock).BBMetricsMap.lookup sixMixedBlock.key ∧
    (analyzeInt State.init sixMixedBlock).BBMetricsMap.lookup sixMixedBlock.key
      = some ⟨2, 1, 2, 1, 0⟩ ∧
    (analyzeInt (analyzeInt State.init sixMixedBlock) sixMixedBlock).BBMetricsMap.lookup
      sixMixedBlock.key = some ⟨4, 2, 4, 2, 0⟩ ∧
    (analyzeInt (analyzeInt State.init sixMixedBlock) sixMixedBlock).BBMetricsMap.lookup
      sixMixedBlock.key ≠
    (analyzeInt State.init sixMixedBlock).BBMetricsMap.lookup sixMixedBlock.key := by
  decide

/-- C5, amended: the record is accumulated, not reset.  For every admitted block and every
prior state whose record for the block, if any, holds `int` values, a second consecutive
run adds the four reference counts of the block once more to the record left by the
first run, in the 32-bit arithmetic of `int` (so exactly, when no sum exceeds
`INT_MAX`), and leaves `AvgDepDist` as it was.  The entry after the second run is
identical to the entry after the first exactly when each of the four counts of the
block is a multiple of `2^32`: for a block of fewer than `2^32` instructions, exactly
when the block has no instruction of a counted category. -/
theorem C5_second_run_accumulates (s : State) (BB : BasicBlock)
    (hsize : 5 ≤ BB.insts.length)
    (hint : ∀ r0, s.BBMetricsMap.lookup BB.key = some r0 → r0.isInt) :
    (∀ r1, (analyzeInt s BB).BBMetricsMap.lookup BB.key = some r1 →
        (analyzeInt (analyzeInt s BB) BB).BBMetricsMap.lookup BB.key =
          some { SimpleInst := wrapInt (r1.SimpleInst + specSimpleCount BB.insts)
                 ComplexInst := wrapInt (r1.ComplexInst + specComplexCount BB.insts)
                 MemoryInst := wrapInt (r1.MemoryInst + specMemoryCount BB.insts)
                 CallInst := wrapInt (r1.CallInst + specCallCount BB.insts)
                 AvgDepDist := r1.AvgDepDist }) ∧
    (∀ r1, (analyzeInt s BB).BBMetricsMap.lookup BB.key = some r1 →
        r1.SimpleInst + specSimpleCount BB.insts ≤ INT_MAX →
        r1.ComplexInst + specComplexCount BB.insts ≤ INT_MAX →
        r1.MemoryInst + specMemoryCount BB.insts ≤ INT_MAX →
        r1.CallInst + specCallCount BB.insts ≤ INT_MAX →
        (analyzeInt (analyzeInt s BB) BB).BBMetricsMap.lookup BB.key =
          some { SimpleInst := r1.SimpleInst + specSimpleCount BB.insts
                 ComplexInst := r1.ComplexInst + specComplexCount BB.insts
                 MemoryInst := r1.MemoryInst + specMemoryCount BB.insts
                 CallInst := r1.CallInst + specCallCount BB.insts
                 AvgDepDist := r1.AvgDepDist }) ∧
    ((analyzeInt (analyzeInt s BB) BB).BBMetricsMap.lookup BB.key =
        (analyzeInt s BB).BBMetricsMap.lookup BB.key ↔
      (4294967296 ∣ specSimpleCount BB.insts ∧ 4294967296 ∣ specComplexCount BB.insts ∧
        4294967296 ∣ specMemoryCount BB.insts ∧ 4294967296 ∣ specCallCount BB.insts)) ∧
    (BB.insts.length < 4294967296 →
      ((analyzeInt (analyzeInt s BB) BB).BBMetricsMap.lookup BB.key =
          (analyzeInt s BB).BBMetricsMap.lookup BB.key ↔
        BB.insts.any specIsCounted = false)) := by
  have hint1 := isInt_lookup_analyzeInt s BB hint
  have hstep : ∀ r1, (analyzeInt s BB).BBMetricsMap.lookup BB.key = some r1 →
      (analyzeInt (analyzeInt s BB) BB).BBMetricsMap.lookup BB.key =
        some (addCountsInt r1 1 BB.insts) :=
    fun r1 h1 => lookup_analyzeInt_of_some (analyzeInt s BB) BB hsize r1 h1 (hint1 r1 h1)
  have hiff : (analyzeInt (analyzeInt s BB) BB).BBMetricsMap.lookup BB.key =
        (analyzeInt s BB).BBMetricsMap.lookup BB.key ↔
      (4294967296 ∣ specSimpleCount BB.insts ∧ 4294967296 ∣ specComplexCount BB.insts ∧
        4294967296 ∣ specMemoryCount BB.insts ∧ 4294967296 ∣ specCallCount BB.insts) := by
    cases h1 : (analyzeInt s BB).BBMetricsMap.lookup BB.key with
    | some r1 =>
      rw [hstep r1 h1, Option.some.injEq]
      exact addCountsInt_eq_self_iff r1 BB.insts (hint1 r1 h1)
    | none =>
      have hD : (analyzeInt s BB).BBMetricsMap.lookupD BB.key = BBMetrics.zero := by
        simp [DenseMap.lookupD, h1]
      have hc : BB.insts.any specIsCounted = false := by
        rw [lookup_analyzeInt_big s BB hsize (isInt_lookupD _ _ hint)] at h1
        by_contra hc
        simp only [Bool.not_eq_false] at hc
        rw [hc] at h1
        simp at h1
      obtain ⟨c1, c2, c3, c4⟩ := counts_eq_zero_of_not_counted BB.insts hc
      rw [lookup_analyzeInt_big (analyzeInt s BB) BB hsize (by rw [hD]; exact isInt_zero),
        hc, h1]
      simp [c1, c2, c3, c4]
  refine ⟨?_, ?_, hiff, ?_⟩
  · intro r1 h1
    rw [hstep r1 h1]
    simp [addCountsInt]
  · intro r1 h1 b1 b2 b3 b4
    obtain ⟨⟨a1, _⟩, ⟨a2, _⟩, ⟨a3, _⟩, ⟨a4, _⟩⟩ := hint1 r1 h1
    rw [hstep r1 h1]
    simp only [addCountsInt, Nat.cast_one, one_mul, Option.some.injEq, BBMetrics.mk.injEq,
      and_true]
    refine ⟨?_, ?_, ?_, ?_⟩ <;> apply wrapInt_eq_self <;>
      simp only [INT_MIN, INT_MAX] at * <;> omega
  · intro hlen
    rw [hiff]
    have hsum := counts_sum BB.insts
    have hle : BB.insts.countP specIsCounted ≤ BB.insts.length := List.countP_le_length _
    constructor
    · rintro ⟨d1, d2, d3, d4⟩
      have hz : BB.insts.countP specIsCounted = 0 := by omega
      by_contra hc
      simp only [Bool.not_eq_false] at hc
      have hpos : 0 < BB.insts.countP specIsCounted :=
        List.countP_pos_iff.mpr (by simpa [List.any_eq_true] using hc)
      omega
    · intro hc
      obtain ⟨c1, c2, c3, c4⟩ := counts_eq_zero_of_not_counted BB.insts hc
      simp [c1, c2, c3, c4]

/-- Witness of the amended C5 on `add, add, mul, load, store, call`. -/
theorem C5_second_run_accumulates_witness :
    5 ≤ sixMixedBlock.insts.length ∧
    (analyzeInt (analyzeInt State.init sixMixedBlock) sixMixedBlock).BBMetricsMap.lookup
      sixMixedBlock.key =
      some { SimpleInst := wrapInt (2 + specSimpleCount sixMixedBlock.insts)
             ComplexInst := wrapInt (1 + specComplexCount sixMixedBlock.insts)
             MemoryInst := wrapInt (2 + specMemoryCount sixMixedBlock.insts)
             CallInst := wrapInt (1 + specCallCount sixMixedBlock.insts)
             AvgDepDist := 0 } :=
  ⟨by decide,
    (C5_second_run_accumulates State.init sixMixedBlock (by decide)
      (fun r0 h0 => by
        have hn : State.init.BBMetricsMap.lookup sixMixedBlock.key = none := rfl
        rw [hn] at h0
        cases h0)).1 ⟨2, 1, 2, 1, 0⟩ (by decide)⟩

/-- After a call on an admitted block, the `AvgDepDist` of its entry is the one of the
entry before, or zero when there was none. -/
theorem avgDepDist_analyze_big (s : State) (BB : BasicBlock) (hsize : 5 ≤ BB.insts.length)
    (r : BBMetrics) (hr : (analyze s BB).BBMetricsMap.lookup BB.key = some r) :
    r.AvgDepDist = (s.BBMetricsMap.lookupD BB.key).AvgDepDist := by
  rw [lookup_analyze_big s BB hsize] at hr
  split at hr
  · cases hr
    rfl
  · simp [DenseMap.lookupD, hr]

/-- When no operand of `rest` is produced by an instruction before it, no reuse distance
is observed. -/
theorem reuseDistancesFrom_eq_nil (rest : List Instruction) :
    ∀ earlier : List Instruction,
      (∀ (i : Nat) (hi : i < rest.length), ∀ v ∈ (rest.get ⟨i, hi⟩).operands,
          ∀ P ∈ earlier ++ rest.take i, P.id ≠ v) →
      reuseDistancesFrom earlier rest = [] := by
  induction rest with
  | nil => intro _ _; rfl
  | cons I rest ih =>
    intro earlier h
    have h0 : I.operands.filterMap (fun v =>
        (producerPosition earlier v).map (fun p => earlier.length - p - 1)) = [] := by
      rw [List.filterMap_eq_nil_iff]
      intro v hv
      have hp : producerPosition earlier v = none := by
        rw [producerPosition, List.findIdx?_eq_none_iff]
        intro P hP
        have := h 0 (Nat.succ_pos _) v hv P (by simpa using hP)
        simpa using this
      rw [hp]
      rfl
    have h1 : reuseDistancesFrom (earlier ++ [I]) rest = [] := by
      apply ih
      intro i hi v hv P hP
      apply h (i + 1) (Nat.succ_lt_succ hi) v hv P
      simpa [List.take_succ_cons] using hP
    rw [reuseDistancesFrom, h0, h1]
    rfl

/-- A block without intra-block operand reuse has reference mean reuse distance zero. -/
theorem specAvgReuseDistance_of_noReuse (insts : List Instruction)
    (h : noIntraBlockReuse insts) : specAvgReuseDistance insts = 0 := by
  have hnil : reuseDistances insts = [] := by
    apply reuseDistancesFrom_eq_nil
    intro i hi v hv P hP
    rw [List.nil_append, List.mem_take_iff_getElem] at hP
    obtain ⟨j, hj, rfl⟩ := hP
    have hji : j < i := (lt_min_iff.mp hj).1
    exact fun e => h ⟨i, hi⟩ ⟨j, by omega⟩ hji (e ▸ hv)
  simp [specAvgReuseDistance, hnil]

/-- C6, the code at the failing input: the block
`%a = load; %b = add %a, 1; %c = add %a, %b; icmp; br` is admitted and has three reuse
events, of distances 1, 2, 1 and mean 4/3 with positions counted as in the worked
example of the specification (0, 1, 0 and mean 1/3 with both positions counted from the
same origin), yet the record the pass leaves for it has `AvgDepDist` 0, the mean under
neither reading: no statement of the pass computes the reuse distance its header
announces. -/
theorem C6_avgDepDist_not_computed :
    5 ≤ reuseBlock.insts.length ∧
    reuseDistancesWorked reuseSeq = [1, 2, 1] ∧
    specAvgReuseDistanceWorked reuseSeq = 4 / 3 ∧
    reuseDistancesWorked reuseBlock.insts = [1, 2, 1] ∧
    specAvgReuseDistanceWorked reuseBlock.insts = 4 / 3 ∧
    reuseDistances reuseBlock.insts = [0, 1, 0] ∧
    specAvgReuseDistance reuseBlock.insts = 1 / 3 ∧
    (∃ r, (analyze State.init reuseBlock).BBMetricsMap.lookup reuseBlock.key = some r ∧
      (analyzeInt State.init reuseBlock).BBMetricsMap.lookup reuseBlock.key = some r ∧
      r.AvgDepDist = 0 ∧
      r.AvgDepDist ≠ specAvgReuseDistanceWorked reuseBlock.insts ∧
      r.AvgDepDist ≠ specAvgReuseDistance reuseBlock.insts) := by
  have h1 : reuseDistancesWorked reuseSeq = [1, 2, 1] := by decide
  have h2 : reuseDistancesWorked reuseBlock.insts = [1, 2, 1] := by decide
  have h3 : reuseDistances reuseBlock.insts = [0, 1, 0] := by decide
  have h4 : specAvgReuseDistanceWorked reuseSeq = 4 / 3 := by
    rw [specAvgReuseDistanceWorked, h1]
    norm_num
  have h5 : specAvgReuseDistanceWorked reuseBlock.insts = 4 / 3 := by
    rw [specAvgReuseDistanceWorked, h2]
    norm_num
  have h6 : specAvgReuseDistance reuseBlock.insts = 1 / 3 := by
    rw [specAvgReuseDistance, h3]
    norm_num
  refine ⟨by decide, h1, h4, h2, h5, h3, h6, ⟨3, 0, 1, 0, 0⟩, by decide, by decide, rfl,
    ?_, ?_⟩
  · rw [h5]; norm_num
  · rw [h6]; norm_num

/-- A call keeps the property that every record of the table has `AvgDepDist` 0. -/
theorem avgDepDist_zero_analyze (s : State) (BB : BasicBlock)
    (h : ∀ k r, s.BBMetricsMap.lookup k = some r → r.AvgDepDist = 0) :
    ∀ k r, (analyze s BB).BBMetricsMap.lookup k = some r → r.AvgDepDist = 0 := by
  intro k r hr
  by_cases hk : BB.key = k
  · subst hk
    by_cases hs : BB.insts.length < 5
    · rw [analyze_small s BB hs] at hr
      exact h _ r hr
    · rw [avgDepDist_analyze_big s BB (by omega) r hr]
      cases hl : s.BBMetricsMap.lookup BB.key with
      | none => simp [DenseMap.lookupD, hl, BBMetrics.zero]
      | some r0 => simpa [DenseMap.lookupD, hl] using h _ r0 hl
  · rw [lookup_analyze_ne s BB k hk] at hr
    exact h k r hr

/-- A sequence of calls keeps the property that every record has `AvgDepDist` 0. -/
theorem avgDepDist_zero_analyzeAll (bbs : List BasicBlock) :
    ∀ s : State, (∀ k r, s.BBMetricsMap.lookup k = some r → r.AvgDepDist = 0) →
      ∀ k r, (analyzeAll s bbs).BBMetricsMap.lookup k = some r → r.AvgDepDist = 0 := by
  induction bbs with
  | nil => intro s h; exact h
  | cons B rest ih =>
    intro s h
    exact ih (analyze s B) (avgDepDist_zero_analyze s B h)

/-- C7: for every admitted block in which no instruction consumes an operand produced by
an earlier instruction of the same block, analysed in any state reached from an empty
metrics table by a sequence of calls, the `AvgDepDist` of the block's record after the
call is 0, which is the reference mean reuse distance of such a block. -/
theorem C7_no_reuse_avg_zero (s : State) (bbs : List BasicBlock) (BB : BasicBlock)
    (hempty : s.BBMetricsMap = [])
    (_hsize : 5 ≤ BB.insts.length)
    (hno : noIntraBlockReuse BB.insts) :
    ∀ r, (analyze (analyzeAll s bbs) BB).BBMetricsMap.lookup BB.key = some r →
      r.AvgDepDist = 0 ∧ r.AvgDepDist = specAvgReuseDistance BB.insts := by
  intro r hr
  have hinit : ∀ k r0, s.BBMetricsMap.lookup k = some r0 → r0.AvgDepDist = 0 := by
    intro k r0 h0
    rw [hempty] at h0
    cases h0
  have h0 : r.AvgDepDist = 0 :=
    avgDepDist_zero_analyze (analyzeAll s bbs) BB
      (avgDepDist_zero_analyzeAll bbs s hinit) BB.key r hr
  exact ⟨h0, by rw [h0, specAvgReuseDistance_of_noReuse BB.insts hno]⟩

/-- Witness of C7 on the block of five `icmp`, none of which has an operand, analysed
after the six-instruction block and once before. -/
theorem C7_no_reuse_avg_zero_witness :
    State.init.BBMetricsMap = [] ∧
    5 ≤ fiveIcmpBlock.insts.length ∧
    noIntraBlockReuse fiveIcmpBlock.insts ∧
    (analyze (analyzeAll State.init [sixMixedBlock, fiveIcmpBlock])
      fiveIcmpBlock).BBMetricsMap.lookup fiveIcmpBlock.key = some ⟨10, 0, 0, 0, 0⟩ ∧
    ((⟨10, 0, 0, 0, 0⟩ : BBMetrics).AvgDepDist = 0 ∧
      (⟨10, 0, 0, 0, 0⟩ : BBMetrics).AvgDepDist =
        specAvgReuseDistance fiveIcmpBlock.insts) :=
  have hno : noIntraBlockReuse fiveIcmpBlock.insts := by
    intro i j _
    have hops : ∀ I ∈ fiveIcmpBlock.insts, I.operands = [] := by decide
    rw [hops _ (List.get_mem _ _ _)]
    exact List.not_mem_nil _
  ⟨rfl, by decide, hno, by decide,
    C7_no_reuse_avg_zero State.init [sixMixedBlock, fiveIcmpBlock] fiveIcmpBlock rfl
      (by decide) hno ⟨10, 0, 0, 0, 0⟩ (by decide)⟩

/-- The two counters after a sequence of calls. -/
theorem counters_analyzeAll (bbs : List BasicBlock) :
    ∀ s : State,
      (analyzeAll s bbs).BBCount = s.BBCount + bbs.length ∧
      (analyzeAll s bbs).ActualBBCount =
        s.ActualBBCount + bbs.countP (fun BB => decide (5 ≤ BB.insts.length)) := by
  induction bbs with
  | nil => intro s; exact ⟨rfl, rfl⟩
  | cons B rest ih =>
    intro s
    have hstep : analyzeAll s (B :: rest) = analyzeAll (analyze s B) rest := rfl
    rw [hstep]
    obtain ⟨h1, h2⟩ := ih (analyze s B)
    rw [h1, h2]
    by_cases hs : B.insts.length < 5
    · have hd : decide (5 ≤ B.insts.length) = false := by simpa using hs
      rw [analyze_small s B hs, List.countP_cons, hd]
      simp only [List.length_cons, Bool.false_eq_true, if_false]
      omega
    · have h5 : 5 ≤ B.insts.length := by omega
      have hd : decide (5 ≤ B.insts.length) = true := by simpa using h5
      rw [analyze_big s B h5, List.countP_cons, hd]
      simp only [List.length_cons, if_true]
      omega

/-- C8: for every finite sequence of calls starting from both counters at zero,
`BBCount` equals the number of calls made and `ActualBBCount` equals the number of those
calls whose block has at least 5 instructions; neither counter ever decreases: after the
first `n` calls each counter is at most its value after the first `m` calls, `n ≤ m`. -/
theorem C8_counters (s : State) (bbs : List BasicBlock)
    (hseen : s.BBCount = 0) (hanalyzed : s.ActualBBCount = 0) :
    (analyzeAll s bbs).BBCount = bbs.length ∧
    (analyzeAll s bbs).ActualBBCount =
      bbs.countP (fun BB => decide (5 ≤ BB.insts.length)) ∧
    (∀ n m : Nat, n ≤ m →
      (analyzeAll s (bbs.take n)).BBCount ≤ (analyzeAll s (bbs.take m)).BBCount ∧
      (analyzeAll s (bbs.take n)).ActualBBCount ≤
        (analyzeAll s (bbs.take m)).ActualBBCount) := by
  obtain ⟨h1, h2⟩ := counters_analyzeAll bbs s
  refine ⟨by omega, by omega, ?_⟩
  intro n m hnm
  obtain ⟨a1, a2⟩ := counters_analyzeAll (bbs.take n) s
  obtain ⟨b1, b2⟩ := counters_analyzeAll (bbs.take m) s
  have hc := (List.take_sublist_take_left bbs hnm).countP_le
    (fun BB : BasicBlock => decide (5 ≤ BB.insts.length))
  have hl := (List.take_sublist_take_left bbs hnm).length_le
  omega

/-- Witness of C8 on three calls, two of them on admitted blocks. -/
theorem C8_counters_witness :
    State.init.BBCount = 0 ∧ State.init.ActualBBCount = 0 ∧
    (analyzeAll State.init [fiveCastBlock, fourAddBlock, sixMixedBlock]).BBCount = 3 ∧
    (analyzeAll State.init [fiveCastBlock, fourAddBlock, sixMixedBlock]).ActualBBCount = 2 :=
  ⟨rfl, rfl,
    (C8_counters State.init [fiveCastBlock, fourAddBlock, sixMixedBlock] rfl rfl).1,
    (C8_counters State.init [fiveCastBlock, fourAddBlock, sixMixedBlock] rfl rfl).2.1⟩

theorem specIsUncounted_eq (I : Instruction) : specIsUncounted I = !specIsCounted I := by
  simp only [specIsUncounted, specIsCounted, specIsComplex, specIsMemory, specIsCall,
    specIsSimple, isSimpleOpcode]
  cases isComplexOpcode I.opcode <;> cases isMemoryOpcode I.opcode <;>
    cases isCallOpcode I.opcode <;> cases isBinaryOp I.opcode <;>
    cases isCmpInst I.opcode <;> rfl

/-- The loop skips the uncounted instructions. -/
theorem foldl_visit_filter (key : Nat) (insts : List Instruction) :
    ∀ m : DenseMap, insts.foldl (visit key) m =
      (insts.filter (fun I => !specIsUncounted I)).foldl (visit key) m := by
  induction insts with
  | nil => intro m; rfl
  | cons I rest ih =>
    intro m
    by_cases hc : specIsCounted I = true
    · have hf : specIsUncounted I = false := by simp [specIsUncounted_eq, hc]
      have hl : (I :: rest).filter (fun I => !specIsUncounted I) =
          I :: rest.filter (fun I => !specIsUncounted I) := by
        simp [List.filter_cons, hf]
      rw [hl, List.foldl_cons, List.foldl_cons, ih]
    · have hc' : specIsCounted I = false := by simpa using hc
      have hf : specIsUncounted I = true := by simp [specIsUncounted_eq, hc']
      have hl : (I :: rest).filter (fun I => !specIsUncounted I) =
          rest.filter (fun I => !specIsUncounted I) := by
        simp [List.filter_cons, hf]
      rw [hl, List.foldl_cons, ih, visit_eq, hc']
      rfl

/-- C10: instructions that are in none of the complex, memory or call sets and are
neither a binary operator nor a comparison are uncounted.  Two blocks of at least 5
instructions whose sequences differ only by insertion or removal of such instructions
(they have the same subsequence of other instructions), analysed from the same state in
which their entries agree, end with the same entry, hence the same four counts; under
the same key the whole states after agree.  The loop body leaves the table as it is on
every such instruction, among them terminators, casts, phi nodes and every opcode value
outside the recognised set, and the pass returns a result on every block. -/
theorem C10_uncounted_ignored (s : State) (B1 B2 : BasicBlock)
    (h1 : 5 ≤ B1.insts.length) (h2 : 5 ≤ B2.insts.length)
    (hdiff : B1.insts.filter (fun I => !specIsUncounted I) =
      B2.insts.filter (fun I => !specIsUncounted I))
    (hprior : s.BBMetricsMap.lookup B1.key = s.BBMetricsMap.lookup B2.key) :
    (analyze s B1).BBMetricsMap.lookup B1.key =
      (analyze s B2).BBMetricsMap.lookup B2.key ∧
    (B1.key = B2.key → analyze s B1 = analyze s B2) ∧
    (∀ (key : Nat) (m : DenseMap) (I : Instruction),
      specIsUncounted I = true → visit key m I = m) ∧
    (∀ (id n : Nat) (ops : List Nat),
      specIsUncounted ⟨id, .Other n, ops⟩ = true ∧
      specIsUncounted ⟨id, .Ret, ops⟩ = true ∧ specIsUncounted ⟨id, .Br, ops⟩ = true ∧
      specIsUncounted ⟨id, .ZExt, ops⟩ = true ∧ specIsUncounted ⟨id, .BitCast, ops⟩ = true ∧
      specIsUncounted ⟨id, .PHI, ops⟩ = true) ∧
    (∃ s1 s2, runOnBasicBlock s B1 = (false, s1) ∧ runOnBasicBlock s B2 = (false, s2)) := by
  refine ⟨?_, ?_, ?_, ?_, ?_⟩
  · rw [analyze_big s B1 h1, analyze_big s B2 h2]
    simp only
    rw [foldl_visit_filter B1.key, foldl_visit_filter B2.key, hdiff,
      lookup_foldl_visit, lookup_foldl_visit]
    simp only [DenseMap.lookupD, hprior]
  · intro hk
    rw [analyze_big s B1 h1, analyze_big s B2 h2, foldl_visit_filter B1.key,
      foldl_visit_filter B2.key, hdiff, hk]
  · intro key m I hI
    have hc : specIsCounted I = false := by
      have := specIsUncounted_eq I
      rw [hI] at this
      simpa using this.symm
    rw [visit_eq, hc]
    rfl
  · intro id n ops
    simp [specIsUncounted, isComplexOpcode, isMemoryOpcode, isCallOpcode, complexOpcodes,
      memoryOpcodes, callOpcodes, isBinaryOp, isCmpInst]
  · exact ⟨(runOnBasicBlock s B1).2, (runOnBasicBlock s B2).2,
      by simp only [runOnBasicBlock]; split <;> rfl,
      by simp only [runOnBasicBlock]; split <;> rfl⟩

/-- Witness of C10: `add, add, mul, load, store, call` and the same block with a phi
node, a cast and a branch inserted give the same counts. -/
theorem C10_uncounted_ignored_witness :
    5 ≤ sixMixedBlock.insts.length ∧ 5 ≤ sixMixedPaddedBlock.insts.length ∧
    sixMixedBlock.insts.filter (fun I => !specIsUncounted I) =
      sixMixedPaddedBlock.insts.filter (fun I => !specIsUncounted I) ∧
    (analyze State.init sixMixedBlock).BBMetricsMap.lookup sixMixedBlock.key =
      (analyze State.init sixMixedPaddedBlock).BBMetricsMap.lookup
        sixMixedPaddedBlock.key :=
  ⟨by decide, by decide, by decide,
    (C10_uncounted_ignored State.init sixMixedBlock sixMixedPaddedBlock (by decide)
      (by decide) (by decide) (by decide)).1⟩

/-! ## Frame and size of the table -/

theorem filter_update (m : DenseMap) (k : Nat) (f : BBMetrics → BBMetrics) :
    (m.update k f).filter (fun p => decide (p.1 ≠ k)) =
      m.filter (fun p => decide (p.1 ≠ k)) := by
  induction m with
  | nil => simp [DenseMap.update]
  | cons e m ih =>
    obtain ⟨k0, r⟩ := e
    by_cases h0 : k0 = k
    · subst h0
      simp [DenseMap.update, List.filter_cons]
    · simp only [DenseMap.update, h0, if_false, List.filter_cons, ih]

theorem filter_visit (key : Nat) (m : DenseMap) (I : Instruction) :
    (visit key m I).filter (fun p => decide (p.1 ≠ key)) =
      m.filter (fun p => decide (p.1 ≠ key)) := by
  rw [visit_eq]
  split
  · exact filter_update m key _
  · rfl

theorem filter_foldl_visit (key : Nat) (insts : List Instruction) :
    ∀ m : DenseMap, (insts.foldl (visit key) m).filter (fun p => decide (p.1 ≠ key)) =
      m.filter (fun p => decide (p.1 ≠ key)) := by
  induction insts with
  | nil => intro m; rfl
  | cons I rest ih =>
    intro m
    rw [List.foldl_cons, ih, filter_visit]

theorem length_update (m : DenseMap) (k : Nat) (f : BBMetrics → BBMetrics) :
    (m.update k f).length =
      if (m.lookup k).isSome then m.length else m.length + 1 := by
  induction m with
  | nil => simp [DenseMap.update, DenseMap.lookup]
  | cons e m ih =>
    obtain ⟨k0, r⟩ := e
    by_cases h0 : k0 = k
    · simp [DenseMap.update, DenseMap.lookup, h0]
    · simp only [DenseMap.update, DenseMap.lookup, h0, if_false, List.length_cons, ih]
      split <;> rfl

/-- The loop adds one entry to the table exactly when the block has a counted
instruction and no entry yet. -/
theorem length_foldl_visit (key : Nat) (insts : List Instruction) :
    ∀ m : DenseMap, (insts.foldl (visit key) m).length =
      if insts.any specIsCounted = true ∧ m.lookup key = none then m.length + 1
      else m.length := by
  induction insts with
  | nil => intro m; simp
  | cons I rest ih =>
    intro m
    rw [List.foldl_cons, ih, visit_eq]
    by_cases hI : specIsCounted I = true
    · simp only [hI, if_true, lookup_update_self, List.any_cons, Bool.true_or, true_and,
        and_false, if_false, length_update]
      cases hl : m.lookup key <;> simp
    · have hI' : specIsCounted I = false := by simpa using hI
      simp only [hI', List.any_cons, Bool.false_or]
      simp

/-- The entry under any key after a call, in terms of the state before. -/
theorem lookup_analyze (s : State) (BB : BasicBlock) (k : Nat) :
    (analyze s BB).BBMetricsMap.lookup k =
      if BB.key = k ∧ 5 ≤ BB.insts.length ∧ BB.insts.any specIsCounted = true then
        some (addCounts (s.BBMetricsMap.lookupD k) BB.insts)
      else s.BBMetricsMap.lookup k := by
  by_cases hk : BB.key = k
  · subst hk
    by_cases hs : BB.insts.length < 5
    · rw [analyze_small s BB hs]
      have : ¬ 5 ≤ BB.insts.length := by omega
      simp [this]
    · have h5 : 5 ≤ BB.insts.length := by omega
      rw [lookup_analyze_big s BB h5]
      simp [h5]
  · rw [lookup_analyze_ne s BB k hk]
    simp [hk]

/-- The number of records after a call, in terms of the state before. -/
theorem length_analyze (s : State) (BB : BasicBlock) :
    (analyze s BB).BBMetricsMap.length =
      if 5 ≤ BB.insts.length ∧ BB.insts.any specIsCounted = true ∧
          s.BBMetricsMap.lookup BB.key = none then
        s.BBMetricsMap.length + 1
      else s.BBMetricsMap.length := by
  by_cases hs : BB.insts.length < 5
  · rw [analyze_small s BB hs]
    have : ¬ 5 ≤ BB.insts.length := by omega
    simp [this]
  · have h5 : 5 ≤ BB.insts.length := by omega
    rw [analyze_big s BB h5]
    simp only [length_foldl_visit, h5, true_and]

/-- The two counters after a call. -/
theorem counters_analyze (s : State) (BB : BasicBlock) :
    (analyze s BB).BBCount = s.BBCount + 1 ∧
    (analyze s BB).ActualBBCount =
      s.ActualBBCount + (if 5 ≤ BB.insts.length then 1 else 0) := by
  by_cases hs : BB.insts.length < 5
  · rw [analyze_small s BB hs]
    have : ¬ 5 ≤ BB.insts.length := by omega
    simp [this]
  · have h5 : 5 ≤ BB.insts.length := by omega
    rw [analyze_big s BB h5]
    simp [h5]

/-- C11 (frame): a call on `BB` changes at most the record keyed by `BB` and the two
counters (the state has no other component): the record, or its absence, under every
other key is the same before and after, and the entries of the table under the other
keys are the same list. -/
theorem C11_frame (s : State) (BB : BasicBlock) (k : Nat) (hk : BB.key ≠ k) :
    (analyze s BB).BBMetricsMap.lookup k = s.BBMetricsMap.lookup k ∧
    (analyze s BB).BBMetricsMap.filter (fun p => decide (p.1 ≠ BB.key)) =
      s.BBMetricsMap.filter (fun p => decide (p.1 ≠ BB.key)) := by
  refine ⟨lookup_analyze_ne s BB k hk, ?_⟩
  by_cases hs : BB.insts.length < 5
  · rw [analyze_small s BB hs]
  · rw [analyze_big s BB (by omega)]
    exact filter_foldl_visit BB.key BB.insts s.BBMetricsMap

/-- Witness of C11: analysing the five-`icmp` block after the six-instruction block
leaves the record of the latter as it was. -/
theorem C11_frame_witness :
    fiveIcmpBlock.key ≠ sixMixedBlock.key ∧
    (analyze (analyze State.init sixMixedBlock) fiveIcmpBlock).BBMetricsMap.lookup
        sixMixedBlock.key =
      (analyze State.init sixMixedBlock).BBMetricsMap.lookup sixMixedBlock.key :=
  ⟨by decide,
    (C11_frame (analyze State.init sixMixedBlock) fiveIcmpBlock sixMixedBlock.key
      (by decide)).1⟩

/-! ## Order of the calls -/

theorem lookupD_analyze (s : State) (BB : BasicBlock) (k : Nat) :
    (analyze s BB).BBMetricsMap.lookupD k =
      if BB.key = k ∧ 5 ≤ BB.insts.length ∧ BB.insts.any specIsCounted = true then
        addCounts (s.BBMetricsMap.lookupD k) BB.insts
      else s.BBMetricsMap.lookupD k := by
  simp only [DenseMap.lookupD, lookup_analyze]
  split <;> rfl

theorem State.same_refl (s : State) : s.same s := ⟨fun _ => rfl, rfl, rfl, rfl⟩

theorem State.same_trans {s t u : State} (h1 : s.same t) (h2 : t.same u) : s.same u :=
  ⟨fun k => (h1.1 k).trans (h2.1 k), h1.2.1.trans h2.2.1, h1.2.2.1.trans h2.2.2.1,
    h1.2.2.2.trans h2.2.2.2⟩

/-- A call maps states with the same table and counters to such states. -/
theorem same_analyze {s t : State} (h : s.same t) (BB : BasicBlock) :
    (analyze s BB).same (analyze t BB) := by
  obtain ⟨hl, hn, hc1, hc2⟩ := h
  refine ⟨fun k => ?_, ?_, ?_, ?_⟩
  · have hD : s.BBMetricsMap.lookupD k = t.BBMetricsMap.lookupD k := by
      simp only [DenseMap.lookupD, hl k]
    rw [lookup_analyze, lookup_analyze, hD, hl k]
  · rw [length_analyze, length_analyze, hl, hn]
  · rw [(counters_analyze s BB).1, (counters_analyze t BB).1, hc1]
  · rw [(counters_analyze s BB).2, (counters_analyze t BB).2, hc2]

theorem same_analyzeAll (bbs : List BasicBlock) :
    ∀ {s t : State}, s.same t → (analyzeAll s bbs).same (analyzeAll t bbs) := by
  induction bbs with
  | nil => intro s t h; exact h
  | cons B rest ih => intro s t h; exact ih (same_analyze h B)

/-- Calls on two blocks of different keys commute. -/
theorem analyze_comm (s : State) (B1 B2 : BasicBlock) (hne : B1.key ≠ B2.key) :
    (analyze (analyze s B1) B2).same (analyze (analyze s B2) B1) := by
  have hne' : B2.key ≠ B1.key := fun h => hne h.symm
  refine ⟨fun k => ?_, ?_, ?_, ?_⟩
  · by_cases h1 : B1.key = k
    · have h2 : ¬ B2.key = k := fun h => hne (h1.trans h.symm)
      simp [lookup_analyze, lookupD_analyze, h1, h2]
    · by_cases h2 : B2.key = k
      · simp [lookup_analyze, lookupD_analyze, h1, h2]
      · simp [lookup_analyze, h1, h2]
  · simp only [length_analyze, lookup_analyze_ne _ _ _ hne, lookup_analyze_ne _ _ _ hne']
    split_ifs <;> omega
  · simp only [(counters_analyze _ _).1]
  · simp only [(counters_analyze _ _).2]
    omega

/-- Running the pass over a list of blocks of pairwise different keys and over a
permutation of it gives the same table and counters. -/
theorem same_analyzeAll_perm {l1 l2 : List BasicBlock} (p : l1.Perm l2) :
    l1.Pairwise (fun a b => a.key ≠ b.key) →
      ∀ s t : State, s.same t → (analyzeAll s l1).same (analyzeAll t l2) := by
  induction p with
  | nil => intro _ s t h; exact h
  | cons x _ ih =>
    intro hd s t h
    exact ih (List.pairwise_cons.mp hd).2 _ _ (same_analyze h x)
  | swap x y l =>
    intro hd s t h
    have hyx : y.key ≠ x.key :=
      (List.pairwise_cons.mp hd).1 x (List.mem_cons_self _ _)
    have h1 : (analyze (analyze s y) x).same (analyze (analyze s x) y) :=
      analyze_comm s y x hyx
    have h2 : (analyze (analyze s x) y).same (analyze (analyze t x) y) :=
      same_analyze (same_analyze h x) y
    exact same_analyzeAll l (State.same_trans h1 h2)
  | trans p1 _ ih1 ih2 =>
    intro hd s t h
    exact State.same_trans (ih1 hd s s (State.same_refl s))
      (ih2 (p1.pairwise hd (fun hxy hyx => hxy hyx.symm)) s t h)

/-- C12: no ordering dependency across blocks.  For every list of blocks of pairwise
different keys and every permutation of it, running the pass over the list and over the
permutation from the same initial state yields the same final metrics table (the same
record, or none, under every key, and the same number of records) and the same `BBCount`
and `ActualBBCount`, and `ActualBBCount` has increased by exactly the number of blocks of
the list that have at least 5 instructions. -/
theorem C12_order_independent (s : State) (l1 l2 : List BasicBlock)
    (hperm : l1.Perm l2) (hdistinct : l1.Pairwise (fun a b => a.key ≠ b.key)) :
    (∀ k, (analyzeAll s l1).BBMetricsMap.lookup k =
        (analyzeAll s l2).BBMetricsMap.lookup k) ∧
    (analyzeAll s l1).BBMetricsMap.length = (analyzeAll s l2).BBMetricsMap.length ∧
    (analyzeAll s l1).BBCount = (analyzeAll s l2).BBCount ∧
    (analyzeAll s l1).ActualBBCount = (analyzeAll s l2).ActualBBCount ∧
    (analyzeAll s l1).ActualBBCount =
      s.ActualBBCount + l1.countP (fun BB => decide (5 ≤ BB.insts.length)) ∧
    (analyzeAll s l2).ActualBBCount =
      s.ActualBBCount + l1.countP (fun BB => decide (5 ≤ BB.insts.length)) := by
  obtain ⟨h1, h2, h3, h4⟩ := same_analyzeAll_perm hperm hdistinct s s (State.same_refl s)
  have hc := (counters_analyzeAll l1 s).2
  exact ⟨h1, h2, h3, h4, hc, by rw [← h4, hc]⟩

/-- Witness of C12 on three blocks and their reversal. -/
theorem C12_order_independent_witness :
    [sixMixedBlock, fiveIcmpBlock, fourAddBlock].Perm
      [fourAddBlock, fiveIcmpBlock, sixMixedBlock] ∧
    [sixMixedBlock, fiveIcmpBlock, fourAddBlock].Pairwise (fun a b => a.key ≠ b.key) ∧
    (∀ k, (analyzeAll State.init [sixMixedBlock, fiveIcmpBlock, fourAddBlock]).BBMetricsMap.lookup
        k =
      (analyzeAll State.init [fourAddBlock, fiveIcmpBlock, sixMixedBlock]).BBMetricsMap.lookup
        k) ∧
    (analyzeAll State.init [fourAddBlock, fiveIcmpBlock, sixMixedBlock]).ActualBBCount =
      State.init.ActualBBCount +
        [sixMixedBlock, fiveIcmpBlock, fourAddBlock].countP
          (fun BB => decide (5 ≤ BB.insts.length)) :=
  have hperm : [sixMixedBlock, fiveIcmpBlock, fourAddBlock].Perm
      [fourAddBlock, fiveIcmpBlock, sixMixedBlock] := by decide
  have hd : [sixMixedBlock, fiveIcmpBlock, fourAddBlock].Pairwise
      (fun a b => a.key ≠ b.key) := by decide
  ⟨hperm, hd, (C12_order_independent State.init _ _ hperm hd).1,
    (C12_order_independent State.init _ _ hperm hd).2.2.2.2.2⟩

/-! ## What the pass reads and writes -/

/-- One loop iteration depends on the instruction through its opcode tag only. -/
theorem visit_congr_opcode (key : Nat) (m : DenseMap) (I J : Instruction)
    (h : I.opcode = J.opcode) : visit key m I = visit key m J := by
  unfold visit
  rw [h]

theorem foldl_visit_congr_opcode (key : Nat) (l1 : List Instruction) :
    ∀ (l2 : List Instruction),
      l1.map (fun I => I.opcode) = l2.map (fun I => I.opcode) →
      ∀ m : DenseMap, l1.foldl (visit key) m = l2.foldl (visit key) m := by
  induction l1 with
  | nil =>
    intro l2 h m
    cases l2 with
    | nil => rfl
    | cons J l2 => simp at h
  | cons I l1 ih =>
    intro l2 h m
    cases l2 with
    | nil => simp at h
    | cons J l2 =>
      simp only [List.map_cons, List.cons.injEq] at h
      rw [List.foldl_cons, List.foldl_cons, visit_congr_opcode key m I J h.1]
      exact ih l2 h.2 _

/-- C13: only opcode tags are read.  For every two blocks with the same key whose
instruction sequences have the same length and position-wise equal opcode tags, with
arbitrary (possibly different) instruction identities and operands, a call from the
same initial state returns the same flag and the same final state, every field of
every record included. -/
theorem C13_only_opcodes_read (s : State) (B1 B2 : BasicBlock)
    (hkey : B1.key = B2.key) (hlen : B1.insts.length = B2.insts.length)
    (hops : ∀ (i : Nat) (h1 : i < B1.insts.length) (h2 : i < B2.insts.length),
      (B1.insts.get ⟨i, h1⟩).opcode = (B2.insts.get ⟨i, h2⟩).opcode) :
    runOnBasicBlock s B1 = runOnBasicBlock s B2 ∧ analyze s B1 = analyze s B2 := by
  have hmap : B1.insts.map (fun I => I.opcode) = B2.insts.map (fun I => I.opcode) := by
    apply List.ext_get
    · simp [hlen]
    · intro n h1 h2
      simp only [List.length_map] at h1 h2
      simpa using hops n h1 h2
  have hrun : runOnBasicBlock s B1 = runOnBasicBlock s B2 := by
    simp only [runOnBasicBlock, BasicBlock.size, hlen, hkey,
      foldl_visit_congr_opcode B2.key B1.insts B2.insts hmap]
  exact ⟨hrun, by simp only [analyze, hrun]⟩

/-- Witness of C13: `add, add, mul, load, store, call` without operands and with
operands, under the same key. -/
theorem C13_only_opcodes_read_witness :
    sixMixedBlock.key = sixMixedOperandsBlock.key ∧
    sixMixedBlock.insts ≠ sixMixedOperandsBlock.insts ∧
    analyze State.init sixMixedBlock = analyze State.init sixMixedOperandsBlock :=
  ⟨rfl, by decide,
    (C13_only_opcodes_read State.init sixMixedBlock sixMixedOperandsBlock rfl rfl
      (by
        intro i h1 h2
        have h6 : i < 6 := h1
        interval_cases i <;> rfl)).2⟩

/-- A loop iteration writes to the pass object only: the block is left as it is. -/
theorem World.block_visitAt (w : World) (i : Nat) : (w.visitAt i).block = w.block := by
  unfold World.visitAt
  split <;> rfl

/-- The loop leaves the block as it is. -/
theorem World.block_loop (todo : Nat) :
    ∀ (w : World) (i : Nat), (World.loop w i todo).block = w.block := by
  induction todo with
  | zero => intro w i; rfl
  | succ n ih =>
    intro w i
    rw [World.loop, ih, World.block_visitAt]

/-- The loop, run from position `i` to the end of the block, classifies the remaining
instructions in order into the table of the pass and changes nothing else in it. -/
theorem World.pass_loop (todo : Nat) :
    ∀ (w : World) (i : Nat), i + todo = w.block.insts.length →
      (World.loop w i todo).pass =
        { w.pass with
          BBMetricsMap := (w.block.insts.drop i).foldl (visit w.block.key)
            w.pass.BBMetricsMap } := by
  induction todo with
  | zero =>
    intro w i h
    have hd : w.block.insts.drop i = [] := List.drop_eq_nil_of_le (by omega)
    rw [World.loop, hd]
    rfl
  | succ n ih =>
    intro w i h
    have hi : i < w.block.insts.length := by omega
    have hget : w.block.insts.get? i = some (w.block.insts.get ⟨i, hi⟩) :=
      List.get?_eq_get hi
    have hv : w.visitAt i =
        { w with pass :=
            { w.pass with
              BBMetricsMap :=
                visit w.block.key w.pass.BBMetricsMap (w.block.insts.get ⟨i, hi⟩) } } := by
      unfold World.visitAt
      rw [hget]
    have hd : w.block.insts.drop i =
        w.block.insts.get ⟨i, hi⟩ :: w.block.insts.drop (i + 1) := by
      simp
    rw [World.loop, ih (w.visitAt i) (i + 1) (by rw [World.block_visitAt]; omega),
      World.block_visitAt, hd, List.foldl_cons, hv]

/-- C14: the pass never mutates the program.  For every block and every state
`runOnBasicBlock` returns `false` (block not modified), on the below-threshold path and
on the admitted path.  Run statement by statement on the memory it can reach, the body
returns the same flag, leaves the pass object in the same state as `runOnBasicBlock`
does, and leaves the block, in particular its instruction sequence, as it was before
the call. -/
theorem C14_program_not_modified (s : State) (BB : BasicBlock) :
    (runOnBasicBlock s BB).1 = false ∧
    (BB.insts.length < 5 →
      runOnBasicBlock s BB = (false, { s with BBCount := s.BBCount + 1 })) ∧
    (5 ≤ BB.insts.length →
      runOnBasicBlock s BB =
        (false, { BBMetricsMap := BB.insts.foldl (visit BB.key) s.BBMetricsMap
                  BBCount := s.BBCount + 1
                  ActualBBCount := s.ActualBBCount + 1 })) ∧
    (runOnBasicBlockW ⟨s, BB⟩).1 = (runOnBasicBlock s BB).1 ∧
    (runOnBasicBlockW ⟨s, BB⟩).2.pass = (runOnBasicBlock s BB).2 ∧
    (runOnBasicBlockW ⟨s, BB⟩).2.block = BB ∧
    (runOnBasicBlockW ⟨s, BB⟩).2.block.insts = BB.insts := by
  have hflag : (runOnBasicBlock s BB).1 = false := by
    simp only [runOnBasicBlock]
    split <;> rfl
  have hblock : (runOnBasicBlockW ⟨s, BB⟩).2.block = BB := by
    simp only [runOnBasicBlockW]
    split
    · rfl
    · exact World.block_loop _ _ _
  refine ⟨hflag, ?_, ?_, ?_, ?_, hblock, by rw [hblock]⟩
  · intro h
    simp [runOnBasicBlock, BasicBlock.size, MIN_BB_SIZE, h, Statistic.incr]
  · intro h
    have h' : ¬ BB.insts.length < 5 := by omega
    simp [runOnBasicBlock, BasicBlock.size, MIN_BB_SIZE, h', Statistic.incr]
  · rw [hflag]
    simp only [runOnBasicBlockW]
    split <;> rfl
  · by_cases h : BB.insts.length < 5
    · simp [runOnBasicBlockW, runOnBasicBlock, World.incrBBCount, BasicBlock.size,
        MIN_BB_SIZE, h]
    · simp only [runOnBasicBlockW, runOnBasicBlock, World.incrBBCount,
        World.incrActualBBCount, BasicBlock.size, MIN_BB_SIZE, h, if_false]
      rw [World.pass_loop _ _ 0 (by simp)]
      simp

theorem avgDepDist_mem_update (m : DenseMap) (k : Nat) (f : BBMetrics → BBMetrics)
    (hf : ∀ r, (f r).AvgDepDist = r.AvgDepDist)
    (h : ∀ p ∈ m, p.2.AvgDepDist = 0) :
    ∀ p ∈ m.update k f, p.2.AvgDepDist = 0 := by
  induction m with
  | nil =>
    intro p hp
    simp only [DenseMap.update, List.mem_singleton] at hp
    subst hp
    simp [hf, BBMetrics.zero]
  | cons e m ih =>
    obtain ⟨k0, r⟩ := e
    have he : r.AvgDepDist = 0 := h (k0, r) (List.mem_cons_self _ _)
    have hm : ∀ p ∈ m, p.2.AvgDepDist = 0 := fun p hp => h p (List.mem_cons_of_mem _ hp)
    intro p hp
    by_cases h0 : k0 = k
    · simp only [DenseMap.update, h0, if_true, List.mem_cons] at hp
      rcases hp with rfl | hp
      · simp [hf, he]
      · exact hm p hp
    · simp only [DenseMap.update, h0, if_false, List.mem_cons] at hp
      rcases hp with rfl | hp
      · exact he
      · exact ih hm p hp

theorem avgDepDist_mem_foldl_visit (key : Nat) (insts : List Instruction) :
    ∀ m : DenseMap, (∀ p ∈ m, p.2.AvgDepDist = 0) →
      ∀ p ∈ insts.foldl (visit key) m, p.2.AvgDepDist = 0 := by
  induction insts with
  | nil => intro m h; exact h
  | cons I rest ih =>
    intro m h
    rw [List.foldl_cons]
    apply ih
    rw [visit_eq]
    split
    · exact avgDepDist_mem_update m key (addInst I) (fun _ => rfl) h
    · exact h

theorem avgDepDist_mem_analyzeAll (bbs : List BasicBlock) :
    ∀ s : State, (∀ p ∈ s.BBMetricsMap, p.2.AvgDepDist = 0) →
      ∀ p ∈ (analyzeAll s bbs).BBMetricsMap, p.2.AvgDepDist = 0 := by
  induction bbs with
  | nil => intro s h; exact h
  | cons B rest ih =>
    intro s h
    apply ih (analyze s B)
    by_cases hs : B.insts.length < 5
    · rw [analyze_small s B hs]
      exact h
    · rw [analyze_big s B (by omega)]
      exact avgDepDist_mem_foldl_visit B.key B.insts s.BBMetricsMap h

/-- C15: the reuse-distance field is never written by the pass.  In every state reached
from an empty metrics table by a sequence of calls, every record present in the table
has `AvgDepDist` equal to 0, whatever the operands of the instructions: every entry of
the table, and so every record found under a key. -/
theorem C15_avgDepDist_never_written (s : State) (bbs : List BasicBlock)
    (hempty : s.BBMetricsMap = []) :
    (∀ p ∈ (analyzeAll s bbs).BBMetricsMap, p.2.AvgDepDist = 0) ∧
    (∀ k r, (analyzeAll s bbs).BBMetricsMap.lookup k = some r → r.AvgDepDist = 0) := by
  refine ⟨avgDepDist_mem_analyzeAll bbs s ?_, avgDepDist_zero_analyzeAll bbs s ?_⟩
  · intro p hp
    rw [hempty] at hp
    cases hp
  · intro k r hr
    rw [hempty] at hr
    cases hr

/-- Witness of C15: after the block with three reuse events, analysed twice, and the
six-instruction block, the record of the former has `AvgDepDist` 0. -/
theorem C15_avgDepDist_never_written_witness :
    State.init.BBMetricsMap = [] ∧
    (analyzeAll State.init [reuseBlock, sixMixedBlock, reuseBlock]).BBMetricsMap.lookup
      reuseBlock.key = some ⟨6, 0, 2, 0, 0⟩ ∧
    (⟨6, 0, 2, 0, 0⟩ : BBMetrics).AvgDepDist = 0 :=
  ⟨rfl, by decide,
    (C15_avgDepDist_never_written State.init [reuseBlock, sixMixedBlock, reuseBlock]
      rfl).2 reuseBlock.key ⟨6, 0, 2, 0, 0⟩ (by decide)⟩

/-! ## Re-analysis, empty records, instruction order, table size -/

/-- The counts of a block of `n + 1` `add` instructions. -/
theorem addsBlock_counts (n : Nat) :
    (addsBlock (n + 1)).insts.length = n + 1 ∧
    specSimpleCount (addsBlock (n + 1)).insts = n + 1 ∧
    specComplexCount (addsBlock (n + 1)).insts = 0 ∧
    specMemoryCount (addsBlock (n + 1)).insts = 0 ∧
    specCallCount (addsBlock (n + 1)).insts = 0 ∧
    (addsBlock (n + 1)).insts.any specIsCounted = true := by
  have hlen : (addsBlock (n + 1)).insts.length = n + 1 := by
    simp only [addsBlock, List.length_map, List.length_range]
  have hmem : ∀ I ∈ (addsBlock (n + 1)).insts, I.opcode = .Add := by
    intro I hI
    simp only [addsBlock, List.mem_map] at hI
    obtain ⟨i, _, rfl⟩ := hI
    rfl
  have hsimple : ∀ I ∈ (addsBlock (n + 1)).insts, specIsSimple I = true := by
    intro I hI
    rw [specIsSimple, hmem I hI]
    decide
  have hcomplex : ∀ I ∈ (addsBlock (n + 1)).insts, ¬ specIsComplex I = true := by
    intro I hI
    rw [specIsComplex, hmem I hI]
    decide
  have hmemory : ∀ I ∈ (addsBlock (n + 1)).insts, ¬ specIsMemory I = true := by
    intro I hI
    rw [specIsMemory, hmem I hI]
    decide
  have hcall : ∀ I ∈ (addsBlock (n + 1)).insts, ¬ specIsCall I = true := by
    intro I hI
    rw [specIsCall, hmem I hI]
    decide
  have hfirst : mkInst (1000 + 0) .Add ∈ (addsBlock (n + 1)).insts := by
    simp only [addsBlock]
    exact List.mem_map.mpr ⟨0, List.mem_range.mpr (by omega), rfl⟩
  refine ⟨hlen, ?_, List.countP_eq_zero.mpr hcomplex, List.countP_eq_zero.mpr hmemory,
    List.countP_eq_zero.mpr hcall, ?_⟩
  · rw [specSimpleCount, List.countP_eq_length.mpr hsimple, hlen]
  · exact List.any_eq_true.mpr
      ⟨_, hfirst, specIsSimple_counted _ (hsimple _ hfirst)⟩

/-- The counts of the block of 65536 `add` instructions. -/
theorem manyAddsBlock_counts :
    manyAddsBlock.insts.length = 65536 ∧
    specSimpleCount manyAddsBlock.insts = 65536 ∧
    specComplexCount manyAddsBlock.insts = 0 ∧
    specMemoryCount manyAddsBlock.insts = 0 ∧
    specCallCount manyAddsBlock.insts = 0 ∧
    manyAddsBlock.insts.any specIsCounted = true :=
  addsBlock_counts 65535

/-- C16, as stated, fails on 32-bit counts: a single call on a block of 65536 `add`
leaves `SimpleInst = 65536`, and after 32768 consecutive calls from the initial state the
count is `-2147483648`, not `32768 * 65536 = 2147483648`. -/
theorem C16_counterexample :
    5 ≤ manyAddsBlock.insts.length ∧
    State.init.BBMetricsMap.lookup manyAddsBlock.key = none ∧
    (analyzeInt State.init manyAddsBlock).BBMetricsMap.lookup manyAddsBlock.key
      = some ⟨65536, 0, 0, 0, 0⟩ ∧
    (analyzeAllInt State.init (List.replicate 32768 manyAddsBlock)).BBMetricsMap.lookup
      manyAddsBlock.key = some ⟨-2147483648, 0, 0, 0, 0⟩ ∧
    (-2147483648 : Int) ≠ 32768 * 65536 := by
  obtain ⟨hlen, c1, c2, c3, c4, hany⟩ := manyAddsBlock_counts
  have hsize : 5 ≤ manyAddsBlock.insts.length := by rw [hlen]; omega
  have hD : State.init.BBMetricsMap.lookupD manyAddsBlock.key = BBMetrics.zero := rfl
  have hint : (State.init.BBMetricsMap.lookupD manyAddsBlock.key).isInt := by
    rw [hD]; exact isInt_zero
  have h1 := lookup_analyzeInt_big State.init manyAddsBlock hsize hint
  have hn : (analyzeAllInt State.init
        (List.replicate 32768 manyAddsBlock)).BBMetricsMap.lookup manyAddsBlock.key =
      if manyAddsBlock.insts.any specIsCounted = true then
        some (addCountsInt (State.init.BBMetricsMap.lookupD manyAddsBlock.key) (32767 + 1)
          manyAddsBlock.insts)
      else State.init.BBMetricsMap.lookup manyAddsBlock.key :=
    lookup_analyzeAllInt_replicate manyAddsBlock hsize 32767 State.init hint
  rw [hany, hD] at h1 hn
  simp only [if_true, addCountsInt, c1, c2, c3, c4, BBMetrics.zero] at h1 hn
  refine ⟨hsize, rfl, ?_, ?_, by norm_num⟩
  · rw [h1]
    norm_num [wrapInt]
  · rw [hn]
    norm_num [wrapInt]

/-- C16, amended: re-analysis accumulates into the existing record.  For every admitted
block and every `n ≥ 1`, after `n` consecutive calls on that block from a state with no
record for it, its entry is the entry after a single call with each of the four counts
multiplied by `n` in the 32-bit arithmetic of `int` (no entry when a single call leaves
none): each count is `n` times the single-call count whenever that product lies within
`INT_MIN .. INT_MAX`.  `ActualBBCount` has increased by `n`. -/
theorem C16_reanalysis_accumulates (s : State) (BB : BasicBlock) (n : Nat)
    (hsize : 5 ≤ BB.insts.length) (hnone : s.BBMetricsMap.lookup BB.key = none)
    (hn : 1 ≤ n) :
    (analyzeAllInt s (List.replicate n BB)).BBMetricsMap.lookup BB.key =
      ((analyzeInt s BB).BBMetricsMap.lookup BB.key).map (BBMetrics.scaleInt n) ∧
    (∀ r1 rn, (analyzeInt s BB).BBMetricsMap.lookup BB.key = some r1 →
      (analyzeAllInt s (List.replicate n BB)).BBMetricsMap.lookup BB.key = some rn →
      (rn.SimpleInst = wrapInt (n * r1.SimpleInst) ∧
        rn.ComplexInst = wrapInt (n * r1.ComplexInst) ∧
        rn.MemoryInst = wrapInt (n * r1.MemoryInst) ∧
        rn.CallInst = wrapInt (n * r1.CallInst)) ∧
      (INT_MIN ≤ n * r1.SimpleInst → n * r1.SimpleInst ≤ INT_MAX →
        rn.SimpleInst = n * r1.SimpleInst) ∧
      (INT_MIN ≤ n * r1.ComplexInst → n * r1.ComplexInst ≤ INT_MAX →
        rn.ComplexInst = n * r1.ComplexInst) ∧
      (INT_MIN ≤ n * r1.MemoryInst → n * r1.MemoryInst ≤ INT_MAX →
        rn.MemoryInst = n * r1.MemoryInst) ∧
      (INT_MIN ≤ n * r1.CallInst → n * r1.CallInst ≤ INT_MAX →
        rn.CallInst = n * r1.CallInst)) ∧
    (analyzeAllInt s (List.replicate n BB)).ActualBBCount = s.ActualBBCount + n := by
  obtain ⟨m, rfl⟩ : ∃ m, n = m + 1 := ⟨n - 1, by omega⟩
  have hD : s.BBMetricsMap.lookupD BB.key = BBMetrics.zero := by
    simp [DenseMap.lookupD, hnone]
  have hint : (s.BBMetricsMap.lookupD BB.key).isInt := by rw [hD]; exact isInt_zero
  have hmain : (analyzeAllInt s (List.replicate (m + 1) BB)).BBMetricsMap.lookup BB.key =
      ((analyzeInt s BB).BBMetricsMap.lookup BB.key).map (BBMetrics.scaleInt (m + 1)) := by
    rw [lookup_analyzeAllInt_replicate BB hsize m s hint,
      lookup_analyzeInt_big s BB hsize hint, hD, hnone]
    split
    · simp only [Option.map_some', Option.some.injEq, addCountsInt, BBMetrics.scaleInt,
        BBMetrics.zero, zero_add, Nat.cast_one, one_mul, wrapInt_mul]
    · rfl
  refine ⟨hmain, ?_, actualBBCount_analyzeAllInt_replicate BB hsize (m + 1) s⟩
  intro r1 rn h1 hn'
  rw [hmain, h1] at hn'
  cases hn'
  refine ⟨⟨rfl, rfl, rfl, rfl⟩, ?_, ?_, ?_, ?_⟩ <;> intro hlo hhi <;>
    exact wrapInt_eq_self _ hlo hhi

/-- Witness of the amended C16: three consecutive calls on
`add, add, mul, load, store, call`. -/
theorem C16_reanalysis_accumulates_witness :
    5 ≤ sixMixedBlock.insts.length ∧
    State.init.BBMetricsMap.lookup sixMixedBlock.key = none ∧
    (analyzeInt State.init sixMixedBlock).BBMetricsMap.lookup sixMixedBlock.key
      = some ⟨2, 1, 2, 1, 0⟩ ∧
    (analyzeAllInt State.init (List.replicate 3 sixMixedBlock)).BBMetricsMap.lookup
      sixMixedBlock.key = some ⟨6, 3, 6, 3, 0⟩ ∧
    (analyzeAllInt State.init (List.replicate 3 sixMixedBlock)).ActualBBCount =
      State.init.ActualBBCount + 3 :=
  ⟨by decide, by decide, by decide, by decide,
    (C16_reanalysis_accumulates State.init sixMixedBlock 3 (by decide) (by decide)
      (by decide)).2.2⟩

/-- C17: a record is created only on the first counted instruction.  For every block
with at least 5 instructions none of which is complex, memory, call, a binary operator
or a comparison, a call from a state with no record for that block leaves the metrics
table as it was, so without a record for the block, while `BBCount` and `ActualBBCount`
each go up by one. -/
theorem C17_no_record_without_counted (s : State) (BB : BasicBlock)
    (hsize : 5 ≤ BB.insts.length)
    (hunc : ∀ I ∈ BB.insts, specIsUncounted I = true)
    (hnone : s.BBMetricsMap.lookup BB.key = none) :
    (analyze s BB).BBMetricsMap.lookup BB.key = none ∧
    (analyze s BB).BBMetricsMap = s.BBMetricsMap ∧
    (analyze s BB).BBCount = s.BBCount + 1 ∧
    (analyze s BB).ActualBBCount = s.ActualBBCount + 1 := by
  have hfil : BB.insts.filter (fun I => !specIsUncounted I) = [] := by
    rw [List.filter_eq_nil_iff]
    intro I hI
    simp [hunc I hI]
  have htab : (analyze s BB).BBMetricsMap = s.BBMetricsMap := by
    rw [analyze_big s BB hsize]
    simp only [foldl_visit_filter BB.key BB.insts, hfil, List.foldl_nil]
  refine ⟨by rw [htab, hnone], htab, ?_, ?_⟩
  · rw [analyze_big s BB hsize]
  · rw [analyze_big s BB hsize]

/-- Witness of C17 on the block of five casts. -/
theorem C17_no_record_without_counted_witness :
    5 ≤ fiveCastBlock.insts.length ∧
    (∀ I ∈ fiveCastBlock.insts, specIsUncounted I = true) ∧
    State.init.BBMetricsMap.lookup fiveCastBlock.key = none ∧
    (analyze State.init fiveCastBlock).BBMetricsMap.lookup fiveCastBlock.key = none ∧
    (analyze State.init fiveCastBlock).BBCount = 1 ∧
    (analyze State.init fiveCastBlock).ActualBBCount = 1 :=
  ⟨by decide, by decide, by decide,
    (C17_no_record_without_counted State.init fiveCastBlock (by decide) (by decide)
      (by decide)).1,
    (C17_no_record_without_counted State.init fiveCastBlock (by decide) (by decide)
      (by decide)).2.2.1,
    (C17_no_record_without_counted State.init fiveCastBlock (by decide) (by decide)
      (by decide)).2.2.2⟩

theorem update_update (m : DenseMap) (k : Nat) (f g : BBMetrics → BBMetrics) :
    (m.update k f).update k g = m.update k (fun r => g (f r)) := by
  induction m with
  | nil => simp [DenseMap.update]
  | cons e m ih =>
    obtain ⟨k0, r⟩ := e
    by_cases h0 : k0 = k
    · simp [DenseMap.update, h0]
    · simp [DenseMap.update, h0, ih]

theorem addInst_comm (I J : Instruction) (r : BBMetrics) :
    addInst J (addInst I r) = addInst I (addInst J r) := by
  simp only [addInst, BBMetrics.mk.injEq, and_true]
  refine ⟨?_, ?_, ?_, ?_⟩ <;> ring

/-- Two loop iterations on the same block commute. -/
theorem visit_comm (key : Nat) (m : DenseMap) (I J : Instruction) :
    visit key (visit key m I) J = visit key (visit key m J) I := by
  simp only [visit_eq]
  by_cases hI : specIsCounted I = true <;> by_cases hJ : specIsCounted J = true
  · simp only [hI, hJ, if_true, update_update]
    congr 1
    funext r
    exact addInst_comm I J r
  · simp [hI, hJ]
  · simp [hI, hJ]
  · simp [hI, hJ]

/-- C18: the record depends only on the multiset of instructions of the block.  For
every block with at least 5 instructions and every permutation of its instruction
sequence (under the same key), a call from the same state yields the same record for
the block, and indeed the same final state. -/
theorem C18_instruction_order_irrelevant (s : State) (B1 B2 : BasicBlock)
    (hsize : 5 ≤ B1.insts.length) (hkey : B1.key = B2.key)
    (hperm : B1.insts.Perm B2.insts) :
    (analyze s B1).BBMetricsMap.lookup B1.key =
      (analyze s B2).BBMetricsMap.lookup B2.key ∧
    analyze s B1 = analyze s B2 := by
  have hsize2 : 5 ≤ B2.insts.length := by rw [← hperm.length_eq]; exact hsize
  have hfold : B1.insts.foldl (visit B1.key) s.BBMetricsMap =
      B2.insts.foldl (visit B2.key) s.BBMetricsMap := by
    rw [hkey]
    exact hperm.foldl_eq' (fun x _ y _ z => visit_comm B2.key z x y) s.BBMetricsMap
  have hst : analyze s B1 = analyze s B2 := by
    rw [analyze_big s B1 hsize, analyze_big s B2 hsize2, hfold]
  exact ⟨by rw [hst, hkey], hst⟩

/-- Witness of C18: `add, add, mul, load, store, call` and its reversal. -/
theorem C18_instruction_order_irrelevant_witness :
    5 ≤ sixMixedBlock.insts.length ∧
    sixMixedBlock.insts.Perm sixMixedReversedBlock.insts ∧
    sixMixedBlock.insts ≠ sixMixedReversedBlock.insts ∧
    analyze State.init sixMixedBlock = analyze State.init sixMixedReversedBlock :=
  ⟨by decide, (List.reverse_perm sixMixedBlock.insts).symm, by decide,
    (C18_instruction_order_irrelevant State.init sixMixedBlock sixMixedReversedBlock
      (by decide) rfl (List.reverse_perm sixMixedBlock.insts).symm).2⟩

/-- A sequence of calls adds at most one record per call on an admitted block. -/
theorem length_analyzeAll_le (bbs : List BasicBlock) :
    ∀ s : State, (analyzeAll s bbs).BBMetricsMap.length ≤
      s.BBMetricsMap.length + bbs.countP (fun BB => decide (5 ≤ BB.insts.length)) := by
  induction bbs with
  | nil => intro s; exact Nat.le_refl _
  | cons B rest ih =>
    intro s
    have hstep : analyzeAll s (B :: rest) = analyzeAll (analyze s B) rest := rfl
    have h1 := ih (analyze s B)
    have h2 := length_analyze s B
    rw [hstep, List.countP_cons]
    by_cases h5 : 5 ≤ B.insts.length
    · have hd : decide (5 ≤ B.insts.length) = true := by simpa using h5
      rw [hd]
      simp only [if_true]
      split at h2 <;> omega
    · have hd : decide (5 ≤ B.insts.length) = false := by simpa using h5
      rw [hd]
      simp only [h5, false_and, if_false] at h2
      simp only [Bool.false_eq_true, if_false]
      omega

/-- C19: in every state reached by a sequence of calls from the state of a fresh pass
(both counters at zero, empty table), `ActualBBCount ≤ BBCount`, and the number of
records in the metrics table is at most `ActualBBCount`. -/
theorem C19_counter_bounds (s : State) (bbs : List BasicBlock)
    (hseen : s.BBCount = 0) (hanalyzed : s.ActualBBCount = 0)
    (hempty : s.BBMetricsMap = []) :
    (analyzeAll s bbs).ActualBBCount ≤ (analyzeAll s bbs).BBCount ∧
    (analyzeAll s bbs).BBMetricsMap.length ≤ (analyzeAll s bbs).ActualBBCount := by
  obtain ⟨h1, h2⟩ := counters_analyzeAll bbs s
  have h3 := length_analyzeAll_le bbs s
  have h4 : bbs.countP (fun BB => decide (5 ≤ BB.insts.length)) ≤ bbs.length :=
    List.countP_le_length _
  rw [hempty] at h3
  simp only [List.length_nil] at h3
  omega

/-- Witness of C19: after five calls, three of them on admitted blocks and two of those
on the same block, the table holds two records. -/
theorem C19_counter_bounds_witness :
    State.init.BBCount = 0 ∧ State.init.ActualBBCount = 0 ∧
    State.init.BBMetricsMap = [] ∧
    (analyzeAll State.init
      [fiveCastBlock, sixMixedBlock, fourAddBlock, sixMixedBlock, fiveIcmpBlock]).BBCount
      = 5 ∧
    (analyzeAll State.init
      [fiveCastBlock, sixMixedBlock, fourAddBlock, sixMixedBlock,
        fiveIcmpBlock]).ActualBBCount = 4 ∧
    (analyzeAll State.init
      [fiveCastBlock, sixMixedBlock, fourAddBlock, sixMixedBlock,
        fiveIcmpBlock]).BBMetricsMap.length = 2 ∧
    ((analyzeAll State.init
      [fiveCastBlock, sixMixedBlock, fourAddBlock, sixMixedBlock,
        fiveIcmpBlock]).ActualBBCount ≤
      (analyzeAll State.init
        [fiveCastBlock, sixMixedBlock, fourAddBlock, sixMixedBlock,
          fiveIcmpBlock]).BBCount ∧
     (analyzeAll State.init
      [fiveCastBlock, sixMixedBlock, fourAddBlock, sixMixedBlock,
        fiveIcmpBlock]).BBMetricsMap.length ≤
      (analyzeAll State.init
        [fiveCastBlock, sixMixedBlock, fourAddBlock, sixMixedBlock,
          fiveIcmpBlock]).ActualBBCount) :=
  ⟨rfl, rfl, rfl, by decide, by decide, by decide,
    C19_counter_bounds State.init
      [fiveCastBlock, sixMixedBlock, fourAddBlock, sixMixedBlock, fiveIcmpBlock]
      rfl rfl rfl⟩

end AnalyzeBB
